import Mathlib

/-!
Verification development for the TypeScript chess rules engine
(classes Position, Move, Piece + subclasses, Board, ChessGame).

The engine is shallowly embedded: every definition mirrors the
corresponding TypeScript method.  JavaScript exceptions (thrown
Error objects) are modelled with Option/Except (none / .error =
an exception propagates).  The engine contains an unbounded mutual
recursion (King.getPossibleMoves calls Board.isInCheck through its
castling gate, and Board.isPositionUnderAttack calls the opposing
King.getPossibleMoves), so every function on that cycle takes a fuel
argument; a result of none at every fuel is how the embedding
expresses nontermination (a stack overflow at run time).
-/

namespace Chess

/-- Color enum of the source. -/
inductive Color where
  | white
  | black
deriving DecidableEq, Repr

/-- PieceType enum of the source. -/
inductive PieceType where
  | pawn
  | rook
  | knight
  | bishop
  | queen
  | king
deriving DecidableEq, Repr

/-- GameState enum of the source. -/
inductive GameState where
  | ongoing
  | check
  | checkmate
  | stalemate
  | draw
deriving DecidableEq, Repr

/-- A piece: color, kind and the mutable hasMoved flag (value view). -/
structure Piece where
  color : Color
  pieceType : PieceType
  hasMoved : Bool
deriving DecidableEq, Repr

/-- A board coordinate.  The engine only ever constructs Position values
with row and col in [0,7] (the constructor throws otherwise); arithmetic
on coordinates is JavaScript number arithmetic, modelled on Int. -/
structure Pos where
  row : Int
  col : Int
deriving DecidableEq, Repr

/-- A Move value: from/to squares, optional promotion piece and the two
special-move flags, defaulting to false exactly as in the source
constructor. -/
structure Move where
  fromPos : Pos
  toPos : Pos
  promotionPiece : Option PieceType := none
  isCastling : Bool := false
  isEnPassant : Bool := false
deriving DecidableEq, Repr

/-- Move.equals: structural equality over all five fields. -/
def Move.equalsb (a b : Move) : Bool :=
  a.fromPos == b.fromPos && a.toPos == b.toPos &&
    a.promotionPiece == b.promotionPiece &&
    a.isCastling == b.isCastling && a.isEnPassant == b.isEnPassant

def opposite : Color → Color
  | .white => .black
  | .black => .white

/-! List lookup / update helpers used to model the 8x8 grid arrays.
All positions reaching the grid in the engine are in range 0..7 (the
Position constructor guarantees it), so the out-of-range behaviour of
these helpers is never exercised. -/

def nthO : List (Option Piece) → Nat → Option Piece
  | [], _ => none
  | x :: _, 0 => x
  | _ :: xs, n + 1 => nthO xs n

def nthRow : List (List (Option Piece)) → Nat → List (Option Piece)
  | [], _ => []
  | x :: _, 0 => x
  | _ :: xs, n + 1 => nthRow xs n

def setO {α : Type} : List α → Nat → α → List α
  | [], _, _ => []
  | _ :: xs, 0, v => v :: xs
  | x :: xs, n + 1, v => x :: setO xs n v

/-- The mutable Board state (value view of one Board object). -/
structure Board where
  grid : List (List (Option Piece))
  moveHistory : List Move
  capturedPieces : List Piece
  enPassantTarget : Option Pos
  halfMoveClock : Nat
  fullMoveNumber : Nat
deriving DecidableEq, Repr

/-- Board.getPiece: direct grid access this.board[row][col]. -/
def getPiece (b : Board) (p : Pos) : Option Piece :=
  if p.row < 0 ∨ p.col < 0 then none
  else nthO (nthRow b.grid p.row.toNat) p.col.toNat

def setRow : List (List (Option Piece)) → Nat → List (Option Piece) →
    List (List (Option Piece))
  | [], _, _ => []
  | _ :: xs, 0, v => v :: xs
  | x :: xs, n + 1, v => x :: setRow xs n v

/-- Board.setPiece: direct grid write. -/
def setPiece (b : Board) (p : Pos) (v : Option Piece) : Board :=
  if p.row < 0 ∨ p.col < 0 then b
  else { b with
         grid := setRow b.grid p.row.toNat
           (setO (nthRow b.grid p.row.toNat) p.col.toNat v) }

/-- Direction of pawn travel: White toward row 0, Black toward row 7. -/
def pawnDir : Color → Int
  | .white => -1
  | .black => 1

/-- The four promotion moves pushed for a back-rank landing, in the fixed
source order Queen, Rook, Bishop, Knight. -/
def promoList (p q : Pos) : List Move :=
  [⟨p, q, some .queen, false, false⟩, ⟨p, q, some .rook, false, false⟩,
   ⟨p, q, some .bishop, false, false⟩, ⟨p, q, some .knight, false, false⟩]

def plainMove (p q : Pos) : Move := ⟨p, q, none, false, false⟩

/-- Board.canEnPassant. -/
def canEnPassant (b : Board) (fromPos toPos : Pos) : Bool :=
  match b.enPassantTarget with
  | none => false
  | some tgt =>
    match getPiece b fromPos with
    | none => false
    | some pc =>
      toPos == tgt && (fromPos.col - toPos.col).natAbs == 1 &&
        fromPos.row == toPos.row + (if pc.color == Color.white then 1 else -1)

/-- The forward block of Pawn.getPossibleMoves.  Result none models the
exception thrown by the Position constructor when the two-square
candidate row newRow + direction is outside [0,7] (the source constructs
that Position before range-checking it). -/
def pawnForward (c : Color) (hm : Bool) (b : Board) (p : Pos) :
    Option (List Move) :=
  let dir := pawnDir c
  let newRow := p.row + dir
  if 0 ≤ newRow ∧ newRow ≤ 7 then
    let fwd : Pos := ⟨newRow, p.col⟩
    if getPiece b fwd = none then
      let base := if newRow = 0 ∨ newRow = 7 then promoList p fwd
                  else [plainMove p fwd]
      if hm then some base
      else
        if 0 ≤ newRow + dir ∧ newRow + dir ≤ 7 then
          let two : Pos := ⟨newRow + dir, p.col⟩
          if getPiece b two = none then some (base ++ [plainMove p two])
          else some base
        else none
    else some []
  else some []

/-- One diagonal block of Pawn.getPossibleMoves (colOffset −1 or 1):
regular capture (promotion-expanded on the back rank), else the
en-passant check. -/
def pawnDiag (c : Color) (b : Board) (p : Pos) (colOffset : Int) :
    List Move :=
  let newRow := p.row + pawnDir c
  let newCol := p.col + colOffset
  if 0 ≤ newCol ∧ newCol ≤ 7 ∧ 0 ≤ newRow ∧ newRow ≤ 7 then
    let cap : Pos := ⟨newRow, newCol⟩
    match getPiece b cap with
    | some tp =>
      if tp.color ≠ c then
        if newRow = 0 ∨ newRow = 7 then promoList p cap
        else [plainMove p cap]
      else if canEnPassant b p cap then [⟨p, cap, none, false, true⟩]
      else []
    | none =>
      if canEnPassant b p cap then [⟨p, cap, none, false, true⟩] else []
  else []

/-- Pawn.getPossibleMoves: forward block, then diagonals −1 and 1. -/
def pawnMoves (c : Color) (hm : Bool) (b : Board) (p : Pos) :
    Option (List Move) :=
  match pawnForward c hm b p with
  | none => none
  | some fw => some (fw ++ pawnDiag c b p (-1) ++ pawnDiag c b p 1)

/-- One sliding ray: distance loop 1..7 with the three break conditions
(edge, own piece, enemy capture). -/
def rayFrom (b : Board) (c : Color) (orig : Pos) (dr dc : Int) :
    Nat → Int → List Move
  | 0, _ => []
  | steps + 1, dist =>
    let newRow := orig.row + dr * dist
    let newCol := orig.col + dc * dist
    if newRow < 0 ∨ newRow > 7 ∨ newCol < 0 ∨ newCol > 7 then []
    else
      let np : Pos := ⟨newRow, newCol⟩
      match getPiece b np with
      | none => plainMove orig np :: rayFrom b c orig dr dc steps (dist + 1)
      | some tp => if tp.color ≠ c then [plainMove orig np] else []

def rayMoves (b : Board) (c : Color) (p : Pos) (dirs : List (Int × Int)) :
    List Move :=
  dirs.foldr (fun d acc => rayFrom b c p d.1 d.2 7 1 ++ acc) []

/-- Rook.getPossibleMoves. -/
def rookMoves (b : Board) (c : Color) (p : Pos) : List Move :=
  rayMoves b c p [(0, 1), (0, -1), (1, 0), (-1, 0)]

/-- Bishop.getPossibleMoves. -/
def bishopMoves (b : Board) (c : Color) (p : Pos) : List Move :=
  rayMoves b c p [(1, 1), (1, -1), (-1, 1), (-1, -1)]

/-- Queen.getPossibleMoves. -/
def queenMoves (b : Board) (c : Color) (p : Pos) : List Move :=
  rayMoves b c p
    [(0, 1), (0, -1), (1, 0), (-1, 0), (1, 1), (1, -1), (-1, 1), (-1, -1)]

def offsetMoves (b : Board) (c : Color) (p : Pos)
    (offs : List (Int × Int)) : List Move :=
  offs.foldr (fun d acc =>
    (let newRow := p.row + d.1
     let newCol := p.col + d.2
     if 0 ≤ newRow ∧ newRow ≤ 7 ∧ 0 ≤ newCol ∧ newCol ≤ 7 then
       match getPiece b ⟨newRow, newCol⟩ with
       | none => [plainMove p ⟨newRow, newCol⟩]
       | some tp => if tp.color ≠ c then [plainMove p ⟨newRow, newCol⟩] else []
     else []) ++ acc) []

/-- Knight.getPossibleMoves. -/
def knightMoves (b : Board) (c : Color) (p : Pos) : List Move :=
  offsetMoves b c p
    [(-2, -1), (-2, 1), (-1, -2), (-1, 2), (1, -2), (1, 2), (2, -1), (2, 1)]

/-- The adjacent-square part of King.getPossibleMoves. -/
def kingAdj (b : Board) (c : Color) (p : Pos) : List Move :=
  offsetMoves b c p
    [(0, 1), (0, -1), (1, 0), (-1, 0), (1, 1), (1, -1), (-1, 1), (-1, -1)]

/-- Row-major list of all 64 squares, the iteration order of every
double for-loop over the grid in the source. -/
def allPositions : List Pos :=
  (List.range 8).foldr (fun r acc =>
    (List.range 8).foldr (fun cl acc2 => (⟨(r : Int), (cl : Int)⟩ : Pos) :: acc2) acc) []

def findKingScan (b : Board) (c : Color) : List Pos → Option Pos
  | [] => none
  | q :: rest =>
    match getPiece b q with
    | some pc =>
      if pc.pieceType == PieceType.king && pc.color == c then some q
      else findKingScan b c rest
    | none => findKingScan b c rest

/-- Board.findKing: first matching king in row-major scan order. -/
def findKing (b : Board) (c : Color) : Option Pos :=
  findKingScan b c allPositions

def backRankList (c : Color) : List (Option Piece) :=
  [some ⟨c, .rook, false⟩, some ⟨c, .knight, false⟩, some ⟨c, .bishop, false⟩,
   some ⟨c, .queen, false⟩, some ⟨c, .king, false⟩, some ⟨c, .bishop, false⟩,
   some ⟨c, .knight, false⟩, some ⟨c, .rook, false⟩]

def pawnRank (c : Color) : List (Option Piece) :=
  List.replicate 8 (some ⟨c, .pawn, false⟩)

def emptyRank : List (Option Piece) := List.replicate 8 none

/-- The Board constructor: standard initial position (Black on rows 0–1,
White on rows 6–7, back-rank order R N B Q K B N R) and zeroed counters. -/
def startBoard : Board :=
  { grid := [backRankList .black, pawnRank .black, emptyRank, emptyRank,
             emptyRank, emptyRank, pawnRank .white, backRankList .white],
    moveHistory := [], capturedPieces := [], enPassantTarget := none,
    halfMoveClock := 0, fullMoveNumber := 1 }

/-! The unbounded mutual recursion of the source:
isPositionUnderAttack scans every opposing piece and asks it for its
possible moves; a King whose hasMoved flag is false asks the board
isInCheck before offering castling, and canCastleThrough asks
isPositionUnderAttack, which scans the opposing pieces again.  To
embed this the recursive functions are first written with the nested
getPossibleMoves call abstracted as a parameter g, and the knot is
then tied by a structural recursion on a fuel counter (gpmF).  A none
result means the fuel ran out: in the source the call is still
recursing (a stack overflow at run time).  Exhausted fuel is the only
source of none in these functions. -/

/-- Generator oracle: what Piece.getPossibleMoves answers one level
deeper in the recursion. -/
def Gen : Type := Board → Pos → Piece → Option (List Move)

/-- The scan loop of Board.isPositionUnderAttack: every opposing
piece's possible moves are tested for one landing on the target. -/
def scanAtt (g : Gen) (b : Board) (target : Pos) (opp : Color) :
    List Pos → Option Bool
  | [] => some false
  | q :: rest =>
    match getPiece b q with
    | some pc =>
      if pc.color == opp then
        match g b q pc with
        | none => none
        | some ms =>
          if ms.any (fun m => m.toPos == target) then some true
          else scanAtt g b target opp rest
      else scanAtt g b target opp rest
    | none => scanAtt g b target opp rest

/-- Board.isPositionUnderAttack over the oracle. -/
def puaOf (g : Gen) (b : Board) (pos : Pos) (byColor : Color) :
    Option Bool :=
  scanAtt g b pos (opposite byColor) allPositions

/-- Board.isInCheck over the oracle. -/
def chkOf (g : Gen) (b : Board) (c : Color) : Option Bool :=
  match findKing b c with
  | none => some false
  | some kp => puaOf g b kp c

/-- King.canCastleThrough over the oracle: every listed square must be
empty and not attacked (short-circuiting, as the source's every with
&&). -/
def cctOf (g : Gen) (b : Board) (c : Color) : List Pos → Option Bool
  | [] => some true
  | q :: rest =>
    match getPiece b q with
    | some _ => some false
    | none =>
      match puaOf g b q c with
      | none => none
      | some true => some false
      | some false => cctOf g b c rest

/-- King.getCastlingMoves over the oracle.  The position list passed to
canCastleThrough starts with the king's own square currentPos, and the
rook guards test only piece kind and hasMoved. -/
def castlingOf (g : Gen) (b : Board) (p : Pos) (pc : Piece) :
    Option (List Move) :=
  let ks : Option (List Move) :=
    match getPiece b ⟨p.row, 7⟩ with
    | some r =>
      if r.pieceType == PieceType.rook && !r.hasMoved then
        match cctOf g b pc.color [p, ⟨p.row, 6⟩, ⟨p.row, 5⟩] with
        | none => none
        | some true => some [⟨p, ⟨p.row, 6⟩, none, true, false⟩]
        | some false => some []
      else some []
    | none => some []
  match ks with
  | none => none
  | some ksl =>
    match getPiece b ⟨p.row, 0⟩ with
    | some r =>
      if r.pieceType == PieceType.rook && !r.hasMoved then
        match cctOf g b pc.color [p, ⟨p.row, 2⟩, ⟨p.row, 3⟩, ⟨p.row, 1⟩] with
        | none => none
        | some true => some (ksl ++ [⟨p, ⟨p.row, 2⟩, none, true, false⟩])
        | some false => some ksl
      else some ksl
    | none => some ksl

/-- Piece.getPossibleMoves over the oracle, dispatching on the piece
kind; the King consults isInCheck (and then getCastlingMoves) exactly
when its hasMoved flag is false. -/
def gpmOf (g : Gen) : Gen := fun b p pc =>
  match pc.pieceType with
  | .pawn => pawnMoves pc.color pc.hasMoved b p
  | .rook => some (rookMoves b pc.color p)
  | .knight => some (knightMoves b pc.color p)
  | .bishop => some (bishopMoves b pc.color p)
  | .queen => some (queenMoves b pc.color p)
  | .king =>
    if pc.hasMoved then some (kingAdj b pc.color p)
    else
      match chkOf g b pc.color with
      | none => none
      | some true => some (kingAdj b pc.color p)
      | some false =>
        match castlingOf g b p pc with
        | none => none
        | some cms => some (kingAdj b pc.color p ++ cms)

/-- The fuel knot: Piece.getPossibleMoves with recursion depth bounded
by fuel. -/
def gpmF : Nat → Gen
  | 0 => fun _ _ _ => none
  | fuel + 1 => gpmOf (gpmF fuel)

/-- Piece.getPossibleMoves at bounded depth. -/
def getPossibleMovesF (fuel : Nat) : Gen := gpmF fuel

/-- Board.isPositionUnderAttack at bounded depth. -/
def isPositionUnderAttackF (fuel : Nat) (b : Board) (pos : Pos)
    (byColor : Color) : Option Bool :=
  puaOf (gpmF fuel) b pos byColor

/-- Board.isInCheck at bounded depth. -/
def isInCheckF (fuel : Nat) (b : Board) (c : Color) : Option Bool :=
  chkOf (gpmF fuel) b c

/-- King.canCastleThrough at bounded depth. -/
def canCastleThroughF (fuel : Nat) (b : Board) (c : Color)
    (ps : List Pos) : Option Bool :=
  cctOf (gpmF fuel) b c ps

/-- King.getCastlingMoves at bounded depth. -/
def getCastlingMovesF (fuel : Nat) (b : Board) (p : Pos) (pc : Piece) :
    Option (List Move) :=
  castlingOf (gpmF fuel) b p pc

/-- Piece.isMoveValid: the requested move must structurally equal one of
the generated possible moves. -/
def isMoveValidF (fuel : Nat) (b : Board) (pc : Piece) (m : Move) :
    Option Bool :=
  match getPossibleMovesF fuel b m.fromPos pc with
  | none => none
  | some ms => some (ms.any (fun x => x.equalsb m))

/-- Board.executeCastling.  Except.error carries the board state at the
moment the source throws (missing king or rook). -/
def executeCastling (b : Board) (m : Move) : Except Board Board :=
  match getPiece b m.fromPos with
  | none => .error b
  | some king =>
    let row := m.fromPos.row
    let b1 := setPiece (setPiece b m.toPos
      (some { king with hasMoved := true })) m.fromPos none
    if m.toPos.col == 6 then
      match getPiece b1 ⟨row, 7⟩ with
      | none => .error b1
      | some rk =>
        .ok (setPiece (setPiece b1 ⟨row, 5⟩
          (some { rk with hasMoved := true })) ⟨row, 7⟩ none)
    else
      match getPiece b1 ⟨row, 0⟩ with
      | none => .error b1
      | some rk =>
        .ok (setPiece (setPiece b1 ⟨row, 3⟩
          (some { rk with hasMoved := true })) ⟨row, 0⟩ none)

/-- this.capturedPieces.push(piece) when a piece was captured. -/
def capPush (b : Board) (cap : Option Piece) : Board :=
  match cap with
  | some cp => { b with capturedPieces := b.capturedPieces ++ [cp] }
  | none => b

/-- this.moveHistory.push(move). -/
def histPush (b : Board) (m : Move) : Board :=
  { b with moveHistory := b.moveHistory ++ [m] }

/-- Board.executeEnPassant: relocate the pawn, then remove the captured
pawn at (fromPos.row, toPos.col) — not the destination square. -/
def executeEnPassant (b : Board) (m : Move) : Except Board Board :=
  match getPiece b m.fromPos with
  | none => .error b
  | some pawn =>
    let b1 := setPiece (setPiece b m.toPos
      (some { pawn with hasMoved := true })) m.fromPos none
    let cpPos : Pos := ⟨m.fromPos.row, m.toPos.col⟩
    .ok (setPiece (capPush b1 (getPiece b1 cpPos)) cpPos none)

/-- Board.updateEnPassantTarget: cleared on every move, then set to the
skipped square when the piece now on the destination is a pawn that
travelled two rows. -/
def updateEnPassantTarget (b : Board) (m : Move) : Board :=
  match getPiece b m.toPos with
  | some pc =>
    if pc.pieceType == PieceType.pawn &&
        (m.fromPos.row - m.toPos.row).natAbs == 2 then
      let tgt : Pos := ⟨(m.fromPos.row + m.toPos.row).fdiv 2, m.toPos.col⟩
      { b with enPassantTarget := some tgt }
    else { b with enPassantTarget := none }
  | none => { b with enPassantTarget := none }

/-- Board.updateMoveCounters. -/
def updateMoveCounters (b : Board) (m : Move) (captured : Option Piece) :
    Board :=
  match getPiece b m.toPos with
  | none => b
  | some piece =>
    let b1 := if piece.pieceType == PieceType.pawn || captured.isSome then
        { b with halfMoveClock := 0 }
      else { b with halfMoveClock := b.halfMoveClock + 1 }
    if piece.color == Color.black then
      { b1 with fullMoveNumber := b1.fullMoveNumber + 1 }
    else b1

/-- Board.executeMove: capture bookkeeping, special-move dispatch,
history append, en-passant target and counters, in source order.
The captured piece is read from the destination before the move. -/
def executeMoveE (b : Board) (m : Move) : Except Board Board :=
  match getPiece b m.fromPos with
  | none => .error b
  | some piece =>
    let captured := getPiece b m.toPos
    let step : Except Board Board :=
      if m.isCastling then executeCastling b m
      else if m.isEnPassant then executeEnPassant b m
      else
        match m.promotionPiece with
        | some pt =>
          .ok (setPiece (setPiece b m.toPos
            (some ⟨piece.color, pt, true⟩)) m.fromPos none)
        | none =>
          .ok (setPiece (setPiece b m.toPos
            (some { piece with hasMoved := true })) m.fromPos none)
    match step with
    | .error s => .error s
    | .ok b1 =>
      let b4 := updateEnPassantTarget (histPush (capPush b1 captured) m) m
      .ok (updateMoveCounters b4 m captured)

/-- Board.wouldBeInCheckAfterMove.  At the value level deepCopy returns
a board equal to the original (the sharing of Piece objects is studied
in the heap model below), so the simulation runs executeMove on the
same board value.  none covers both a thrown exception and the
unbounded recursion inside isInCheck. -/
def wouldBeInCheckAfterMoveF (fuel : Nat) (b : Board) (m : Move)
    (c : Color) : Option Bool :=
  match executeMoveE b m with
  | .error _ => none
  | .ok b2 => isInCheckF fuel b2 c

/-- Board.makeMove.  Returns the board state after the call together
with some result, or none when an exception escapes (in which case the
first component is the state at the moment of the throw). -/
def makeMoveF (fuel : Nat) (b : Board) (m : Move) : Board × Option Bool :=
  match getPiece b m.fromPos with
  | none => (b, some false)
  | some piece =>
    match isMoveValidF fuel b piece m with
    | none => (b, none)
    | some false => (b, some false)
    | some true =>
      match wouldBeInCheckAfterMoveF fuel b m piece.color with
      | none => (b, none)
      | some true => (b, some false)
      | some false =>
        match executeMoveE b m with
        | .ok b2 => (b2, some true)
        | .error s => (s, none)

/-- The inner filter of getAllLegalMoves over one piece's moves. -/
def filterLegalF (fuel : Nat) (b : Board) (c : Color) :
    List Move → Option (List Move)
  | [] => some []
  | m :: rest =>
    match wouldBeInCheckAfterMoveF fuel b m c with
    | none => none
    | some true => filterLegalF fuel b c rest
    | some false =>
      match filterLegalF fuel b c rest with
      | none => none
      | some keep => some (m :: keep)

/-- The grid scan of getAllLegalMoves. -/
def legalScanF (fuel : Nat) (b : Board) (c : Color) :
    List Pos → Option (List Move)
  | [] => some []
  | q :: rest =>
    match getPiece b q with
    | some pc =>
      if pc.color == c then
        match getPossibleMovesF fuel b q pc with
        | none => none
        | some ms =>
          match filterLegalF fuel b c ms with
          | none => none
          | some keep =>
            match legalScanF fuel b c rest with
            | none => none
            | some more => some (keep ++ more)
      else legalScanF fuel b c rest
    | none => legalScanF fuel b c rest

/-- Board.getAllLegalMoves. -/
def getAllLegalMovesF (fuel : Nat) (b : Board) (c : Color) :
    Option (List Move) :=
  legalScanF fuel b c allPositions

/-- Board.isCheckmate, with the source's short-circuit on isInCheck. -/
def isCheckmateF (fuel : Nat) (b : Board) (c : Color) : Option Bool :=
  match isInCheckF fuel b c with
  | none => none
  | some false => some false
  | some true =>
    match getAllLegalMovesF fuel b c with
    | none => none
    | some ms => some ms.isEmpty

/-- Board.isStalemate. -/
def isStalemateF (fuel : Nat) (b : Board) (c : Color) : Option Bool :=
  match isInCheckF fuel b c with
  | none => none
  | some true => some false
  | some false =>
    match getAllLegalMovesF fuel b c with
    | none => none
    | some ms => some ms.isEmpty

/-- The ChessGame controller state. -/
structure ChessGame where
  board : Board
  currentPlayer : Color
  gameState : GameState
  moveCount : Nat
deriving DecidableEq, Repr

/-- The ChessGame constructor. -/
def startGame : ChessGame := ⟨startBoard, .white, .ongoing, 0⟩

/-- ChessGame.isDraw: only the 50-move half-move clock. -/
def isDrawB (b : Board) : Bool := 100 ≤ b.halfMoveClock

/-- ChessGame.updateGameState, evaluated for the player now to move:
checkmate, then stalemate, then check, then draw, then ongoing. -/
def updateGameStateF (fuel : Nat) (b : Board) (player : Color) :
    Option GameState :=
  match isCheckmateF fuel b player with
  | none => none
  | some true => some .checkmate
  | some false =>
    match isStalemateF fuel b player with
    | none => none
    | some true => some .stalemate
    | some false =>
      match isInCheckF fuel b player with
      | none => none
      | some true => some .check
      | some false => if isDrawB b then some .draw else some .ongoing

/-- ChessGame.makeMove: terminal-state and turn-ownership gate, then
delegation to Board.makeMove, then player switch and state refresh. -/
def gameMakeMoveF (fuel : Nat) (g : ChessGame) (m : Move) :
    ChessGame × Option Bool :=
  if g.gameState ≠ GameState.ongoing ∧ g.gameState ≠ GameState.check then
    (g, some false)
  else
    match getPiece g.board m.fromPos with
    | none => (g, some false)
    | some piece =>
      if piece.color ≠ g.currentPlayer then (g, some false)
      else
        match makeMoveF fuel g.board m with
        | (b2, none) => ({ g with board := b2 }, none)
        | (b2, some false) => ({ g with board := b2 }, some false)
        | (b2, some true) =>
          let g2 : ChessGame :=
            { board := b2, currentPlayer := opposite g.currentPlayer,
              gameState := g.gameState, moveCount := g.moveCount + 1 }
          match updateGameStateF fuel b2 g2.currentPlayer with
          | none => (g2, none)
          | some st => ({ g2 with gameState := st }, some true)

/-! Algebraic notation.  JavaScript number arithmetic on the parsing
path is modelled with JNum: an integer or NaN (parseInt of a non-digit
character).  Every comparison against NaN is false. -/

inductive JNum where
  | nan
  | int (n : Int)
deriving DecidableEq, Repr

def JNum.ltb : JNum → JNum → Bool
  | .int a, .int b => a < b
  | _, _ => false

def JNum.subJ : JNum → JNum → JNum
  | .int a, .int b => .int (a - b)
  | _, _ => .nan

/-- The Position constructor: throws (none) when
row < 0 || row > 7 || col < 0 || col > 7.  A NaN coordinate passes the
check because every NaN comparison is false. -/
def positionNew (row col : JNum) : Option (JNum × JNum) :=
  if row.ltb (.int 0) || (JNum.int 7).ltb row ||
      col.ltb (.int 0) || (JNum.int 7).ltb col then none
  else some (row, col)

/-- parseInt(ch, 10) on a single character: its value for an ASCII digit,
NaN otherwise. -/
def parseIntChar (ch : Char) : JNum :=
  if 48 ≤ ch.toNat ∧ ch.toNat ≤ 57 then .int ((ch.toNat : Int) - 48)
  else .nan

/-- Position.fromAlgebraic: length-2 check (throw otherwise), then
col = charCodeAt(0) − 97 and row = 8 − parseInt(second char). -/
def fromAlgebraic (s : String) : Option (JNum × JNum) :=
  match s.data with
  | [c0, c1] =>
    positionNew (JNum.subJ (.int 8) (parseIntChar c1))
      (.int ((c0.toNat : Int) - 97))
  | _ => none

/-- Position.toAlgebraic: file letter from 97 + col, rank digit 8 − row. -/
def toAlgebraic (p : Pos) : String :=
  ⟨[Char.ofNat (97 + p.col.toNat), Char.ofNat (48 + (8 - p.row.toNat))]⟩

/-- The promotion-letter map of makeMoveFromAlgebraic (uppercased key;
any other letter yields undefined, i.e. no promotion). -/
def promoOf (s : String) : Option PieceType :=
  let u := s.toUpper
  if u = "Q" then some .queen
  else if u = "R" then some .rook
  else if u = "B" then some .bishop
  else if u = "N" then some .knight
  else none

def toEnginePos : JNum × JNum → Option Pos
  | (.int r, .int c) => some ⟨r, c⟩
  | _ => none

/-- ChessGame.makeMoveFromAlgebraic.  The try/catch converts any thrown
exception — parse failure, and also the RangeError of the unbounded
recursion (fuel exhaustion, the none result) — into a false return.
A parsed coordinate that is NaN never equals any generated move
coordinate and the grid access on it throws inside the catch, so those
calls return false with the game untouched; they are short-circuited
here. -/
def makeMoveFromAlgebraicF (fuel : Nat) (g : ChessGame)
    (fromS toS : String) (promo : Option String) : ChessGame × Bool :=
  match fromAlgebraic fromS, fromAlgebraic toS with
  | some fp, some tp =>
    match toEnginePos fp, toEnginePos tp with
    | some f, some t =>
      let promotionPiece := match promo with
        | some s => promoOf s
        | none => none
      let mv : Move := ⟨f, t, promotionPiece, false, false⟩
      match gameMakeMoveF fuel g mv with
      | (g2, some r) => (g2, r)
      | (g2, none) => (g2, false)
    | _, _ => (g, false)
  | _, _ => (g, false)

/-! Heap model.  Board.deepCopy copies the grid arrays
(this.board.map(row => [...row])) but the Piece objects inside them are
shared between the copy and the live board.  To study that sharing the
grid is modelled as references (indices) into a heap of Piece objects;
markAsMoved mutates the heap entry, which both boards see.  Pure
queries never write, so they are evaluated on the dereferenced value
board (toValue). -/

def nthG {α : Type} : List α → Nat → Option α
  | [], _ => none
  | x :: _, 0 => some x
  | _ :: xs, n + 1 => nthG xs n

def heapGet (h : List Piece) (i : Nat) : Option Piece := nthG h i

def heapSet : List Piece → Nat → Piece → List Piece
  | [], _, _ => []
  | _ :: xs, 0, v => v :: xs
  | x :: xs, n + 1, v => x :: heapSet xs n v

/-- piece.markAsMoved() on the heap object with index i. -/
def markMoved (h : List Piece) (i : Nat) : List Piece :=
  match heapGet h i with
  | some pc => heapSet h i { pc with hasMoved := true }
  | none => h

/-- A Board object whose grid holds references into the piece heap. -/
structure HBoard where
  grid : List (List (Option Nat))
  moveHistory : List Move
  capturedIds : List Nat
  enPassantTarget : Option Pos
  halfMoveClock : Nat
  fullMoveNumber : Nat
deriving DecidableEq, Repr

def hGetId (b : HBoard) (p : Pos) : Option Nat :=
  if p.row < 0 ∨ p.col < 0 then none
  else match nthG b.grid p.row.toNat with
    | none => none
    | some row =>
      match nthG row p.col.toNat with
      | none => none
      | some cell => cell

def hSetId (b : HBoard) (p : Pos) (v : Option Nat) : HBoard :=
  if p.row < 0 ∨ p.col < 0 then b
  else match nthG b.grid p.row.toNat with
    | none => b
    | some row =>
      { b with grid := setO b.grid p.row.toNat (setO row p.col.toNat v) }

/-- Board.getPiece through the references. -/
def hGetPiece (h : List Piece) (b : HBoard) (p : Pos) : Option Piece :=
  (hGetId b p).bind (heapGet h)

/-- The value board a given heap and reference board denote.  Pure
queries (move generation, attack scans, validation) read but never
write, so running them on the dereferenced value is faithful. -/
def toValue (h : List Piece) (b : HBoard) : Board :=
  { grid := b.grid.map (fun row => row.map (fun cell => cell.bind (heapGet h))),
    moveHistory := b.moveHistory,
    capturedPieces := b.capturedIds.filterMap (heapGet h),
    enPassantTarget := b.enPassantTarget,
    halfMoveClock := b.halfMoveClock,
    fullMoveNumber := b.fullMoveNumber }

/-- Board.executeCastling on the heap. -/
def executeCastlingH (h : List Piece) (b : HBoard) (m : Move) :
    Except (List Piece × HBoard) (List Piece × HBoard) :=
  match hGetId b m.fromPos with
  | none => .error (h, b)
  | some kid =>
    let row := m.fromPos.row
    let b1 := hSetId (hSetId b m.toPos (some kid)) m.fromPos none
    let h1 := markMoved h kid
    if m.toPos.col == 6 then
      match hGetId b1 ⟨row, 7⟩ with
      | none => .error (h1, b1)
      | some rid =>
        .ok (markMoved h1 rid,
          hSetId (hSetId b1 ⟨row, 5⟩ (some rid)) ⟨row, 7⟩ none)
    else
      match hGetId b1 ⟨row, 0⟩ with
      | none => .error (h1, b1)
      | some rid =>
        .ok (markMoved h1 rid,
          hSetId (hSetId b1 ⟨row, 3⟩ (some rid)) ⟨row, 0⟩ none)

/-- Board.executeEnPassant on the heap. -/
def executeEnPassantH (h : List Piece) (b : HBoard) (m : Move) :
    Except (List Piece × HBoard) (List Piece × HBoard) :=
  match hGetId b m.fromPos with
  | none => .error (h, b)
  | some pid =>
    let b1 := hSetId (hSetId b m.toPos (some pid)) m.fromPos none
    let h1 := markMoved h pid
    let cpPos : Pos := ⟨m.fromPos.row, m.toPos.col⟩
    let b2 := match hGetId b1 cpPos with
      | some cid => { b1 with capturedIds := b1.capturedIds ++ [cid] }
      | none => b1
    .ok (h1, hSetId b2 cpPos none)

def updateEnPassantTargetH (h : List Piece) (b : HBoard) (m : Move) :
    HBoard :=
  match hGetPiece h b m.toPos with
  | some pc =>
    if pc.pieceType == PieceType.pawn &&
        (m.fromPos.row - m.toPos.row).natAbs == 2 then
      let tgt : Pos := ⟨(m.fromPos.row + m.toPos.row).fdiv 2, m.toPos.col⟩
      { b with enPassantTarget := some tgt }
    else { b with enPassantTarget := none }
  | none => { b with enPassantTarget := none }

def updateMoveCountersH (h : List Piece) (b : HBoard) (m : Move)
    (capturedSome : Bool) : HBoard :=
  match hGetPiece h b m.toPos with
  | none => b
  | some piece =>
    let b1 := if piece.pieceType == PieceType.pawn || capturedSome then
        { b with halfMoveClock := 0 }
      else { b with halfMoveClock := b.halfMoveClock + 1 }
    if piece.color == Color.black then
      { b1 with fullMoveNumber := b1.fullMoveNumber + 1 }
    else b1

/-- Board.executeMove on the heap: the moved (or promoted) piece is
marked moved by mutating its heap entry, visible to every board whose
grid references it. -/
def executeMoveH (h : List Piece) (b : HBoard) (m : Move) :
    Except (List Piece × HBoard) (List Piece × HBoard) :=
  match hGetId b m.fromPos with
  | none => .error (h, b)
  | some pid =>
    let piece := heapGet h pid
    let capturedId := hGetId b m.toPos
    let step : Except (List Piece × HBoard) (List Piece × HBoard) :=
      if m.isCastling then executeCastlingH h b m
      else if m.isEnPassant then executeEnPassantH h b m
      else
        match m.promotionPiece, piece with
        | some pt, some pc =>
          let nid := h.length
          let h1 := h ++ [(⟨pc.color, pt, true⟩ : Piece)]
          .ok (h1, hSetId (hSetId b m.toPos (some nid)) m.fromPos none)
        | _, _ =>
          .ok (markMoved h pid,
            hSetId (hSetId b m.toPos (some pid)) m.fromPos none)
    match step with
    | .error s => .error s
    | .ok (h1, b1) =>
      let b2 := match capturedId with
        | some cid => { b1 with capturedIds := b1.capturedIds ++ [cid] }
        | none => b1
      let b3 := { b2 with moveHistory := b2.moveHistory ++ [m] }
      let b4 := updateEnPassantTargetH h1 b3 m
      .ok (h1, updateMoveCountersH h1 b4 m capturedId.isSome)

/-- Board.wouldBeInCheckAfterMove in the heap model.  deepCopy builds a
new Board object with fresh grid arrays holding the same Piece
references and the same field values, so the copy is the same HBoard
value over the shared heap; the simulated executeMove's heap mutations
persist after the copy is discarded. -/
def wouldBeInCheckAfterMoveH (fuel : Nat) (h : List Piece) (b : HBoard)
    (m : Move) (c : Color) : List Piece × Option Bool :=
  match executeMoveH h b m with
  | .error (h1, _) => (h1, none)
  | .ok (h1, bc) => (h1, isInCheckF fuel (toValue h1 bc) c)

/-- Board.makeMove in the heap model: on every exit path the first
component is the (heap, live board) pair the caller is left with. -/
def makeMoveH (fuel : Nat) (h : List Piece) (b : HBoard) (m : Move) :
    (List Piece × HBoard) × Option Bool :=
  match hGetPiece h b m.fromPos with
  | none => ((h, b), some false)
  | some piece =>
    match isMoveValidF fuel (toValue h b) piece m with
    | none => ((h, b), none)
    | some false => ((h, b), some false)
    | some true =>
      match wouldBeInCheckAfterMoveH fuel h b m piece.color with
      | (h1, none) => ((h1, b), none)
      | (h1, some true) => ((h1, b), some false)
      | (h1, some false) =>
        match executeMoveH h1 b m with
        | .ok s => (s, some true)
        | .error s => (s, none)

/-! Concrete data for the claims. -/

def backRankPieces (c : Color) : List Piece :=
  [⟨c, .rook, false⟩, ⟨c, .knight, false⟩, ⟨c, .bishop, false⟩,
   ⟨c, .queen, false⟩, ⟨c, .king, false⟩, ⟨c, .bishop, false⟩,
   ⟨c, .knight, false⟩, ⟨c, .rook, false⟩]

/-- Heap layout of the 32 pieces the Board constructor allocates:
row 0 holds ids 0–7, row 1 ids 8–15, row 6 ids 16–23, row 7 ids 24–31. -/
def startHeap : List Piece :=
  backRankPieces .black ++ List.replicate 8 (⟨.black, .pawn, false⟩ : Piece) ++
    List.replicate 8 (⟨.white, .pawn, false⟩ : Piece) ++ backRankPieces .white

def idRow (start : Nat) : List (Option Nat) :=
  (List.range 8).map (fun i => some (start + i))

def emptyIdRow : List (Option Nat) := List.replicate 8 none

/-- The initial position as a reference board over startHeap. -/
def startHB : HBoard :=
  { grid := [idRow 0, idRow 8, emptyIdRow, emptyIdRow, emptyIdRow,
             emptyIdRow, idRow 16, idRow 24],
    moveHistory := [], capturedIds := [], enPassantTarget := none,
    halfMoveClock := 0, fullMoveNumber := 1 }

/-- e2–e4 in grid coordinates, as makeMoveFromAlgebraic builds it. -/
def mvE2E4 : Move := ⟨⟨6, 4⟩, ⟨4, 4⟩, none, false, false⟩

/-- a2–a3, the first candidate move getAllLegalMoves(White) simulates
on the initial position. -/
def mvA2A3 : Move := ⟨⟨6, 0⟩, ⟨5, 0⟩, none, false, false⟩

/-- A row with a single occupied square. -/
def rowWith (c : Nat) (pc : Piece) : List (Option Piece) :=
  (List.range 8).map (fun i => if i = c then some pc else none)

def rowWith2 (c1 : Nat) (p1 : Piece) (c2 : Nat) (p2 : Piece) :
    List (Option Piece) :=
  (List.range 8).map (fun i =>
    if i = c1 then some p1 else if i = c2 then some p2 else none)

/-- Castling-ready position: unmoved White king e1 and rook h1 with f1
and g1 empty and unattacked; the Black king (marked moved, so its own
castling gate is skipped) is the only other piece. -/
def posC : Board :=
  { grid := [rowWith 4 ⟨.black, .king, true⟩, emptyRank, emptyRank,
             emptyRank, emptyRank, emptyRank, emptyRank,
             rowWith2 4 ⟨.white, .king, false⟩ 7 ⟨.white, .rook, false⟩],
    moveHistory := [], capturedPieces := [], enPassantTarget := none,
    halfMoveClock := 0, fullMoveNumber := 1 }

/-- Pinned-rook position for the heap model: Black rook e8 pins the
unmoved White rook e2 against the moved White king e1; the moved Black
king sits on a8.  Heap ids: 0 black king, 1 black rook, 2 white rook,
3 white king. -/
def heapC3 : List Piece :=
  [⟨.black, .king, true⟩, ⟨.black, .rook, false⟩,
   ⟨.white, .rook, false⟩, ⟨.white, .king, true⟩]

def hbC3 : HBoard :=
  { grid := [[some 0, none, none, none, some 1, none, none, none],
             emptyIdRow, emptyIdRow, emptyIdRow, emptyIdRow, emptyIdRow,
             [none, none, none, none, some 2, none, none, none],
             [none, none, none, none, some 3, none, none, none]],
    moveHistory := [], capturedIds := [], enPassantTarget := none,
    halfMoveClock := 0, fullMoveNumber := 1 }

/-- e2–a2: pseudo-legal for the pinned rook but leaves the White king
attacked, so makeMove rejects it after simulating it. -/
def mvC3 : Move := ⟨⟨6, 4⟩, ⟨6, 0⟩, none, false, false⟩

/-- En-passant position: Black pawn d5 has just double-pushed past the
White pawn e5 (en-passant target d6 = (2,3)); both kings are marked
moved so every check scan terminates. -/
def bEP : Board :=
  { grid := [rowWith 4 ⟨.black, .king, true⟩, emptyRank, emptyRank,
             rowWith2 3 ⟨.black, .pawn, true⟩ 4 ⟨.white, .pawn, true⟩,
             emptyRank, emptyRank, emptyRank,
             rowWith 4 ⟨.white, .king, true⟩],
    moveHistory := [⟨⟨1, 3⟩, ⟨3, 3⟩, none, false, false⟩],
    capturedPieces := [], enPassantTarget := some ⟨2, 3⟩,
    halfMoveClock := 0, fullMoveNumber := 1 }

/-- The flagged en-passant capture e5xd6 on bEP. -/
def mvEP : Move := ⟨⟨3, 4⟩, ⟨2, 3⟩, none, false, true⟩

/-- bEP after executing the en-passant capture. -/
def bEPafter : Board :=
  match executeMoveE bEP mvEP with
  | .ok b => b
  | .error b => b

def gEP : ChessGame := ⟨bEP, .white, .ongoing, 0⟩

/-- C7 counterexample board: an unmoved White pawn two squares from the
back rank with both squares ahead of it empty. -/
def bC7 : Board :=
  { grid := [emptyRank, emptyRank, rowWith 0 ⟨.white, .pawn, false⟩,
             emptyRank, emptyRank, emptyRank, emptyRank,
             rowWith2 0 ⟨.white, .king, true⟩ 7 ⟨.black, .king, true⟩],
    moveHistory := [], capturedPieces := [], enPassantTarget := none,
    halfMoveClock := 0, fullMoveNumber := 1 }

/-- Turn-order board: both kings marked moved (so check scans
terminate) and an unmoved Black rook on a8. -/
def bT : Board :=
  { grid := [rowWith2 0 ⟨.black, .rook, false⟩ 4 ⟨.black, .king, true⟩,
             emptyRank, emptyRank, emptyRank, emptyRank, emptyRank,
             emptyRank, rowWith 4 ⟨.white, .king, true⟩],
    moveHistory := [], capturedPieces := [], enPassantTarget := none,
    halfMoveClock := 0, fullMoveNumber := 1 }

/-- a8–a5 by Black on bT, although no Black move preceded it. -/
def mvT : Move := ⟨⟨0, 0⟩, ⟨3, 0⟩, none, false, false⟩

/-- bT after mvT. -/
def bTAfter : Board :=
  match executeMoveE bT mvT with
  | .ok b => b
  | .error b => b

/-- The board the legality filter simulates when getAllLegalMoves(White)
tests its first candidate a2–a3 on the initial position. -/
def bAfterA3 : Board :=
  match executeMoveE startBoard mvA2A3 with
  | .ok b => b
  | .error b => b

/-- The board the legality filter simulates when makeMove(e2–e4) runs on
the initial position. -/
def bAfterE4 : Board :=
  match executeMoveE startBoard mvE2E4 with
  | .ok b => b
  | .error b => b

/-- a2–a4, the second candidate move of the a2 pawn. -/
def mvA2A4 : Move := ⟨⟨6, 0⟩, ⟨4, 0⟩, none, false, false⟩

/-- Witness board for the amended C7: a White pawn one step from the
back rank that has already moved, with the square ahead empty. -/
def bW7 : Board :=
  { grid := [emptyRank, rowWith 2 ⟨.white, .pawn, true⟩, emptyRank,
             emptyRank, emptyRank, emptyRank, emptyRank,
             rowWith2 0 ⟨.white, .king, true⟩ 7 ⟨.black, .king, true⟩],
    moveHistory := [], capturedPieces := [], enPassantTarget := none,
    halfMoveClock := 0, fullMoveNumber := 1 }

/-- The stuck continuation of an attack scan at an unmoved king's
square: the king's move generation gated by the isInCheck result s,
castling computed with the inner oracle gi, then the remainder of the
scan with the outer oracle gs. -/
def kingCell (gi gs : Gen) (b : Board) (target : Pos) (opp : Color)
    (p : Pos) (pc : Piece) (rest : List Pos) (s : Option Bool) :
    Option Bool :=
  match (match s with
         | none => none
         | some true => some (kingAdj b pc.color p)
         | some false =>
           match castlingOf gi b p pc with
           | none => none
           | some cms => some (kingAdj b pc.color p ++ cms)) with
  | none => none
  | some ms =>
    if ms.any (fun m => m.toPos == target) then some true
    else scanAtt gs b target opp rest

/-- An 8×8 grid. -/
abbrev WF (b : Board) : Prop :=
  b.grid.length = 8 ∧ ∀ r ∈ b.grid, r.length = 8

/-- Coordinates the Position constructor accepts. -/
abbrev inR (p : Pos) : Prop :=
  0 ≤ p.row ∧ p.row ≤ 7 ∧ 0 ≤ p.col ∧ p.col ≤ 7

/-- The opponent's back rank for a pawn of the given color: the row on
which its forward and capture moves are promotion-expanded. -/
def backRank : Color → Int
  | .white => 0
  | .black => 7

/-- The en-passant targets the engine can ever store: absent, or a
square strictly between the two back ranks (updateEnPassantTarget only
writes the midpoint of a two-row move). -/
abbrev epOK (b : Board) : Prop :=
  b.enPassantTarget = none ∨
    ∃ t, b.enPassantTarget = some t ∧ 1 ≤ t.row ∧ t.row ≤ 6

/-! Theorems.  First the nontermination of the check machinery on the
boards the claims visit: the attack scan for one color reduces, cell by
cell, until it reaches the opposing unmoved king, whose castling gate
asks isInCheck for the other color one fuel level lower; no fuel is
ever enough. -/

theorem kingCell_none (gi gs : Gen) (b : Board) (target : Pos)
    (opp : Color) (p : Pos) (pc : Piece) (rest : List Pos) :
    kingCell gi gs b target opp p pc rest none = none := rfl

theorem stepW0 (n : Nat) (h : isInCheckF n startBoard .black = none) :
    isInCheckF (n + 1) startBoard .white = none := by
  have e : isInCheckF (n + 1) startBoard .white
      = kingCell (gpmF n) (gpmF (n + 1)) startBoard ⟨7, 4⟩ .black ⟨0, 4⟩
          ⟨.black, .king, false⟩ (allPositions.drop 5)
          (isInCheckF n startBoard .black) := rfl
  rw [e, h, kingCell_none]

theorem stepB0 (n : Nat) (h : isInCheckF n startBoard .white = none) :
    isInCheckF (n + 1) startBoard .black = none := by
  have e : isInCheckF (n + 1) startBoard .black
      = kingCell (gpmF n) (gpmF (n + 1)) startBoard ⟨0, 4⟩ .white ⟨7, 4⟩
          ⟨.white, .king, false⟩ (allPositions.drop 61)
          (isInCheckF n startBoard .white) := rfl
  rw [e, h, kingCell_none]

/-- Board.isInCheck never returns on the initial position, at any
recursion depth, for either color. -/
theorem startNone : ∀ n,
    isInCheckF n startBoard .white = none ∧
    isInCheckF n startBoard .black = none
  | 0 => ⟨rfl, rfl⟩
  | n + 1 => ⟨stepW0 n (startNone n).2, stepB0 n (startNone n).1⟩

theorem stepW1 (n : Nat) (h : isInCheckF n bAfterA3 .black = none) :
    isInCheckF (n + 1) bAfterA3 .white = none := by
  have e : isInCheckF (n + 1) bAfterA3 .white
      = kingCell (gpmF n) (gpmF (n + 1)) bAfterA3 ⟨7, 4⟩ .black ⟨0, 4⟩
          ⟨.black, .king, false⟩ (allPositions.drop 5)
          (isInCheckF n bAfterA3 .black) := rfl
  rw [e, h, kingCell_none]

theorem stepB1 (n : Nat) (h : isInCheckF n bAfterA3 .white = none) :
    isInCheckF (n + 1) bAfterA3 .black = none := by
  have e : isInCheckF (n + 1) bAfterA3 .black
      = kingCell (gpmF n) (gpmF (n + 1)) bAfterA3 ⟨0, 4⟩ .white ⟨7, 4⟩
          ⟨.white, .king, false⟩ (allPositions.drop 61)
          (isInCheckF n bAfterA3 .white) := rfl
  rw [e, h, kingCell_none]

/-- Board.isInCheck never returns on the board of the first simulated
candidate of getAllLegalMoves(White). -/
theorem afterA3None : ∀ n,
    isInCheckF n bAfterA3 .white = none ∧
    isInCheckF n bAfterA3 .black = none
  | 0 => ⟨rfl, rfl⟩
  | n + 1 => ⟨stepW1 n (afterA3None n).2, stepB1 n (afterA3None n).1⟩

theorem stepW2 (n : Nat) (h : isInCheckF n bAfterE4 .black = none) :
    isInCheckF (n + 1) bAfterE4 .white = none := by
  have e : isInCheckF (n + 1) bAfterE4 .white
      = kingCell (gpmF n) (gpmF (n + 1)) bAfterE4 ⟨7, 4⟩ .black ⟨0, 4⟩
          ⟨.black, .king, false⟩ (allPositions.drop 5)
          (isInCheckF n bAfterE4 .black) := rfl
  rw [e, h, kingCell_none]

theorem stepB2 (n : Nat) (h : isInCheckF n bAfterE4 .white = none) :
    isInCheckF (n + 1) bAfterE4 .black = none := by
  have e : isInCheckF (n + 1) bAfterE4 .black
      = kingCell (gpmF n) (gpmF (n + 1)) bAfterE4 ⟨0, 4⟩ .white ⟨7, 4⟩
          ⟨.white, .king, false⟩ (allPositions.drop 61)
          (isInCheckF n bAfterE4 .white) := rfl
  rw [e, h, kingCell_none]

/-- Board.isInCheck never returns on the board makeMove(e2–e4)
simulates from the initial position. -/
theorem afterE4None : ∀ n,
    isInCheckF n bAfterE4 .white = none ∧
    isInCheckF n bAfterE4 .black = none
  | 0 => ⟨rfl, rfl⟩
  | n + 1 => ⟨stepW2 n (afterE4None n).2, stepB2 n (afterE4None n).1⟩

/-- Board.makeMove(e2–e4) on the initial position: the pawn is found
and the move validates, but the legality simulation never returns; the
call stack-overflows with the board unchanged. -/
theorem makeMoveE2E4Div : ∀ n,
    makeMoveF n startBoard mvE2E4 = (startBoard, none)
  | 0 => rfl
  | n + 1 => by
    have e : makeMoveF (n + 1) startBoard mvE2E4
        = (match isInCheckF (n + 1) bAfterE4 .white with
           | none => (startBoard, none)
           | some true => (startBoard, some false)
           | some false =>
             match executeMoveE startBoard mvE2E4 with
             | .ok b2 => (b2, some true)
             | .error s => (s, none)) := rfl
    rw [e, (afterE4None (n + 1)).1]

/-- Board.getAllLegalMoves(White) on the initial position never
returns: the very first simulated candidate a2–a3 hangs inside
isInCheck. -/
theorem legalMovesDiv : ∀ n,
    getAllLegalMovesF n startBoard .white = none
  | 0 => rfl
  | n + 1 => by
    have e : getAllLegalMovesF (n + 1) startBoard .white
        = (match (match isInCheckF (n + 1) bAfterA3 .white with
                  | none => none
                  | some true => filterLegalF (n + 1) startBoard .white [mvA2A4]
                  | some false =>
                    match filterLegalF (n + 1) startBoard .white [mvA2A4] with
                    | none => none
                    | some keep => some (mvA2A3 :: keep)) with
           | none => none
           | some keep =>
             match legalScanF (n + 1) startBoard .white (allPositions.drop 49) with
             | none => none
             | some more => some (keep ++ more)) := rfl
    rw [e, (afterA3None (n + 1)).1]

/-- C1: the claim that isInCheck, isPositionUnderAttack,
getAllLegalMoves and makeMove are bounded, terminating computations on
every reachable board fails already on the standard initial position:
at every recursion depth each of these calls is still recursing (the
castling gate of each unmoved king re-enters isInCheck for the other
side), so the source overflows the stack instead of returning. -/
theorem c1_board_operations_diverge_on_start : ∀ fuel,
    isInCheckF fuel startBoard .white = none ∧
    isPositionUnderAttackF fuel startBoard ⟨7, 4⟩ .white = none ∧
    makeMoveF fuel startBoard mvE2E4 = (startBoard, none) ∧
    getAllLegalMovesF fuel startBoard .white = none :=
  fun fuel =>
    ⟨(startNone fuel).1, (startNone fuel).1, makeMoveE2E4Div fuel,
      legalMovesDiv fuel⟩

/-- C6: getAllLegalMoves(White) on the freshly constructed board never
returns 20 moves — it never returns at all: the simulation of its
first candidate a2–a3 re-enters isInCheck without bound, so the claim
fails on the code (the 20-move answer is what the spec intends). -/
theorem c6_getAllLegalMoves_diverges_on_start : ∀ fuel,
    getAllLegalMovesF fuel startBoard .white = none :=
  legalMovesDiv

/-- C2: the clone used by the legality filter is not an independent
deep copy.  Simulating the candidate e2–e4 from the initial position
(the call wouldBeInCheckAfterMove performs) marks the shared Piece
object moved: afterwards the live board's e2 pawn has hasMoved = true,
although only the clone was supposed to change. -/
theorem c2_simulation_marks_live_pawn_moved :
    hGetPiece startHeap startHB ⟨6, 4⟩ = some ⟨.white, .pawn, false⟩ ∧
    hGetPiece (wouldBeInCheckAfterMoveH 1 startHeap startHB mvE2E4 .white).1
      startHB ⟨6, 4⟩ = some ⟨.white, .pawn, true⟩ ∧
    toValue startHeap startHB = startBoard := by
  decide

/-- C3: a failing Board.makeMove does not leave the observable state
unchanged.  On the pinned-rook position the move e2–a2 is rejected
(result false) and the live board object is untouched, but the live
White rook's hasMoved flag — read through the live board — has been
flipped to true by the simulation on the shared Piece objects. -/
theorem c3_rejected_move_mutates_live_rook :
    (makeMoveH 2 heapC3 hbC3 mvC3).2 = some false ∧
    (makeMoveH 2 heapC3 hbC3 mvC3).1.2 = hbC3 ∧
    hGetPiece heapC3 hbC3 ⟨6, 4⟩ = some ⟨.white, .rook, false⟩ ∧
    hGetPiece (makeMoveH 2 heapC3 hbC3 mvC3).1.1 hbC3 ⟨6, 4⟩
      = some ⟨.white, .rook, true⟩ := by
  decide

/-- C4: on a position where every castling precondition of the claim
holds — unmoved king e1 and rook h1, f1 and g1 empty, none of e1, f1,
g1 attacked — the king's move generation still produces no castling
move, because canCastleThrough also requires the king's own square
currentPos to be empty, which is never true.  (The final conjunct
evaluates that very guard.) -/
theorem c4_castling_ready_position_yields_no_castling :
    getPiece posC ⟨7, 4⟩ = some ⟨.white, .king, false⟩ ∧
    getPiece posC ⟨7, 7⟩ = some ⟨.white, .rook, false⟩ ∧
    getPiece posC ⟨7, 5⟩ = none ∧
    getPiece posC ⟨7, 6⟩ = none ∧
    isPositionUnderAttackF 3 posC ⟨7, 4⟩ .white = some false ∧
    isPositionUnderAttackF 3 posC ⟨7, 5⟩ .white = some false ∧
    isPositionUnderAttackF 3 posC ⟨7, 6⟩ .white = some false ∧
    getPossibleMovesF 3 posC ⟨7, 4⟩ ⟨.white, .king, false⟩
      = some (kingAdj posC .white ⟨7, 4⟩) ∧
    (kingAdj posC .white ⟨7, 4⟩).all (fun m => !m.isCastling) = true ∧
    canCastleThroughF 2 posC .white [⟨7, 4⟩, ⟨7, 6⟩, ⟨7, 5⟩]
      = some false := by
  decide

/-- C5 counterexample: the claim says the file letter is accepted
case-insensitively, so "A1" should parse to the square with col 0 and
row 7; the source computes col = charCode − 97 = −32 and the Position
constructor throws. -/
theorem c5_counterexample_uppercase_rejected :
    fromAlgebraic "A1" = none ∧
    fromAlgebraic "a1" = some (.int 7, .int 0) := by
  decide

/-- C5 amended: fromAlgebraic is the exact inverse of toAlgebraic on
all 64 squares and fails on inputs whose length is not 2; on
two-character input it succeeds exactly when the file character is a
lowercase letter a–h (uppercase is rejected: col = charCode − 97 is
negative) and the rank character is either a digit 1–8 (giving
row = 8 − rank, col = file index) or any non-digit (parseInt yields
NaN, every NaN comparison is false, and a position with a NaN row is
returned); rank digits 0 and 9 are rejected. -/
theorem c5_fromAlgebraic_characterization :
    (∀ r c : Fin 8, fromAlgebraic (toAlgebraic ⟨(r : Int), (c : Int)⟩)
        = some (.int (r : Int), .int (c : Int))) ∧
    (∀ s : String, s.data.length ≠ 2 → fromAlgebraic s = none) ∧
    (∀ c0 c1 : Char, 97 ≤ c0.toNat → c0.toNat ≤ 104 →
      49 ≤ c1.toNat → c1.toNat ≤ 56 →
      fromAlgebraic ⟨[c0, c1]⟩
        = some (.int (8 - ((c1.toNat : Int) - 48)),
                .int ((c0.toNat : Int) - 97))) ∧
    (∀ c0 c1 : Char, 97 ≤ c0.toNat → c0.toNat ≤ 104 →
      ¬(48 ≤ c1.toNat ∧ c1.toNat ≤ 57) →
      fromAlgebraic ⟨[c0, c1]⟩
        = some (.nan, .int ((c0.toNat : Int) - 97))) ∧
    (∀ c0 c1 : Char, ¬(97 ≤ c0.toNat ∧ c0.toNat ≤ 104) →
      fromAlgebraic ⟨[c0, c1]⟩ = none) ∧
    (∀ c0 c1 : Char, c1.toNat = 48 ∨ c1.toNat = 57 →
      fromAlgebraic ⟨[c0, c1]⟩ = none) := by
  refine ⟨by decide, ?_, ?_, ?_, ?_, ?_⟩
  · intro s h
    rcases hs : s.data with _ | ⟨a, _ | ⟨b, _ | ⟨c, t⟩⟩⟩ <;>
      first
        | (exfalso; rw [hs] at h; exact h rfl)
        | simp [fromAlgebraic, hs]
  · intro c0 c1 h1 h2 h3 h4
    simp only [fromAlgebraic, parseIntChar, positionNew]
    split_ifs <;> first
      | rfl
      | (exfalso; omega)
      | (exfalso; simp [JNum.subJ, JNum.ltb] at *; omega)
  · intro c0 c1 h1 h2 h3
    simp only [fromAlgebraic, parseIntChar, positionNew]
    split_ifs <;> first
      | rfl
      | (exfalso; omega)
      | (exfalso; simp [JNum.subJ, JNum.ltb] at *; omega)
  · intro c0 c1 h1
    simp only [fromAlgebraic, parseIntChar, positionNew]
    split_ifs <;> first
      | rfl
      | (exfalso; omega)
      | (exfalso; simp [JNum.subJ, JNum.ltb] at *; omega)
  · intro c0 c1 h1
    simp only [fromAlgebraic, parseIntChar, positionNew]
    split_ifs <;> first
      | rfl
      | (exfalso; omega)
      | (exfalso; simp [JNum.subJ, JNum.ltb] at *; omega)

/-- Concrete instances of the characterization: "e4" parses to the
square (4,4), "ax" succeeds with a NaN row, "A1", "i9", "a0" and "e"
fail. -/
theorem c5_characterization_witness :
    fromAlgebraic ⟨['e', '4']⟩ = some (.int 4, .int 4) ∧
    fromAlgebraic ⟨['a', 'x']⟩ = some (.nan, .int 0) ∧
    fromAlgebraic ⟨['i', '9']⟩ = none ∧
    fromAlgebraic ⟨['a', '0']⟩ = none ∧
    fromAlgebraic "e" = none :=
  ⟨c5_fromAlgebraic_characterization.2.2.1 'e' '4' (by decide) (by decide)
      (by decide) (by decide),
    c5_fromAlgebraic_characterization.2.2.2.1 'a' 'x' (by decide) (by decide)
      (by decide),
    c5_fromAlgebraic_characterization.2.2.2.2.2 'i' '9' (Or.inr (by decide)),
    c5_fromAlgebraic_characterization.2.2.2.2.2 'a' '0' (Or.inl (by decide)),
    c5_fromAlgebraic_characterization.2.1 "e" (by decide)⟩

/-! Membership lemmas about move generation, used for the promotion,
en-passant and algebraic-entry claims. -/

/-- Move.equals is structural equality over all five fields, so it
coincides with propositional equality of Move values. -/
theorem equalsb_iff (a b : Move) : Move.equalsb a b = true ↔ a = b := by
  cases a; cases b
  simp [Move.equalsb, Move.mk.injEq, and_assoc]

/-- Every move produced by the shared offset-table pattern is a plain
move from p to p plus one of the offsets. -/
theorem offsetMoves_mem {b : Board} {c : Color} {p : Pos} :
    ∀ (offs : List (Int × Int)) (m : Move), m ∈ offsetMoves b c p offs →
      ∃ d, d ∈ offs ∧ m = plainMove p ⟨p.row + d.1, p.col + d.2⟩
  | [], m, h => by simp [offsetMoves] at h
  | d :: rest, m, h => by
    simp only [offsetMoves, List.foldr_cons] at h
    rw [List.mem_append] at h
    rcases h with h | h
    · refine ⟨d, List.mem_cons_self d rest, ?_⟩
      split at h
      · split at h
        · simp_all
        · split at h <;> simp_all
      · simp at h
    · obtain ⟨d2, hd2, hm2⟩ := offsetMoves_mem rest m h
      exact ⟨d2, List.mem_cons_of_mem d hd2, hm2⟩

/-- The king's non-castling moves go at most one column away and carry
no flags. -/
theorem kingAdj_mem {b : Board} {c : Color} {p : Pos} {m : Move}
    (h : m ∈ kingAdj b c p) :
    m.fromPos = p ∧ m.promotionPiece = none ∧ m.isCastling = false ∧
      m.isEnPassant = false ∧ (p.col - m.toPos.col).natAbs ≤ 1 := by
  obtain ⟨d, hd, rfl⟩ := offsetMoves_mem _ m h
  fin_cases hd <;> simp [plainMove]

/-- A true canEnPassant means the destination is exactly the stored
en-passant target and the files are adjacent. -/
theorem canEnPassant_true {b : Board} {fromPos toPos : Pos}
    (h : canEnPassant b fromPos toPos = true) :
    b.enPassantTarget = some toPos ∧
      (fromPos.col - toPos.col).natAbs = 1 := by
  unfold canEnPassant at h
  split at h
  · exact absurd h (by simp)
  · split at h
    · exact absurd h (by simp)
    · simp only [Bool.and_eq_true, beq_iff_eq] at h
      obtain ⟨⟨h1, h2⟩, h3⟩ := h
      subst h1
      exact ⟨by assumption, h2⟩

/-- Shape of the forward block's output: single pushes land one row
ahead on the same file and are promotion moves exactly when they reach
row 0 or 7; double pushes land two rows ahead, are never
promotion-flagged, and occur only for an unmoved pawn. -/
theorem pawnForward_mem {c : Color} {hm : Bool} {b : Board} {p : Pos}
    {fw : List Move} {m : Move} (hf : pawnForward c hm b p = some fw)
    (hmem : m ∈ fw) :
    m.fromPos = p ∧ m.isCastling = false ∧ m.isEnPassant = false ∧
    m.toPos.col = p.col ∧
    ((m.toPos.row = p.row + pawnDir c ∧
        ((m.promotionPiece ≠ none) ↔ (m.toPos.row = 0 ∨ m.toPos.row = 7))) ∨
     (m.toPos.row = p.row + 2 * pawnDir c ∧ m.promotionPiece = none ∧
        hm = false)) := by
  simp only [pawnForward] at hf
  split_ifs at hf <;>
    first
      | (exact Option.noConfusion hf)
      | (injection hf with hfw; subst hfw;
         (try simp only [promoList, plainMove, List.cons_append,
           List.nil_append] at hmem);
         fin_cases hmem <;> (try simp_all) <;> (try omega))

/-- Shape of one diagonal block's output: the landing square is fixed;
the move is either en-passant-flagged with canEnPassant true, or a
capture of an enemy piece, promotion-expanded exactly on row 0 or 7. -/
theorem pawnDiag_mem {c : Color} {b : Board} {p : Pos} {off : Int}
    {m : Move} (h : m ∈ pawnDiag c b p off) :
    m.fromPos = p ∧ m.isCastling = false ∧
    m.toPos = ⟨p.row + pawnDir c, p.col + off⟩ ∧
    ((m.isEnPassant = true ∧ m.promotionPiece = none ∧
        canEnPassant b p m.toPos = true) ∨
     (m.isEnPassant = false ∧
        (∃ tp, getPiece b m.toPos = some tp ∧ tp.color ≠ c) ∧
        ((m.promotionPiece ≠ none) ↔ (m.toPos.row = 0 ∨ m.toPos.row = 7)))) := by
  simp only [pawnDiag] at h
  split_ifs at h <;>
    first
      | (exact absurd h (List.not_mem_nil m))
      | (split at h <;>
          first
            | (exact absurd h (List.not_mem_nil m))
            | ((try split_ifs at h) <;>
                first
                  | (exact absurd h (List.not_mem_nil m))
                  | ((try simp only [promoList, plainMove] at h);
                     fin_cases h <;> (try simp_all) <;> (try omega))))

/-- Every generated pawn move comes from the forward block or one of
the two diagonal blocks. -/
theorem pawnMoves_cases {c : Color} {hm : Bool} {b : Board} {p : Pos}
    {ms : List Move} {m : Move} (h : pawnMoves c hm b p = some ms)
    (hmem : m ∈ ms) :
    (∃ fw, pawnForward c hm b p = some fw ∧ m ∈ fw) ∨
      m ∈ pawnDiag c b p (-1) ∨ m ∈ pawnDiag c b p 1 := by
  unfold pawnMoves at h
  split at h
  · exact Option.noConfusion h
  · next fw hfw =>
    injection h with h2
    subst h2
    simp only [List.mem_append] at hmem
    rcases hmem with (hmem | hmem) | hmem
    · exact Or.inl ⟨fw, hfw, hmem⟩
    · exact Or.inr (Or.inl hmem)
    · exact Or.inr (Or.inr hmem)

/-! Filter lemmas for the promotion-expansion claim. -/

/-- The forward block never emits a plain move one step ahead onto the
back rank: filtered at such a square its output is empty or exactly the
four-promotion expansion. -/
theorem pawnForward_filter {c : Color} {hm : Bool} {b : Board} {p : Pos}
    {fw : List Move} {dest : Pos}
    (hf : pawnForward c hm b p = some fw)
    (hrow : dest.row = p.row + pawnDir c)
    (hbr : dest.row = 0 ∨ dest.row = 7)
    (hcol : dest.col = p.col) :
    fw.filter (fun m => m.toPos == dest) = [] ∨
    fw.filter (fun m => m.toPos == dest) = promoList p dest := by
  have hdest : dest = ⟨p.row + pawnDir c, p.col⟩ := by
    cases dest; simp_all
  subst hdest
  cases c <;>
    (simp only [pawnForward, pawnDir] at hf hbr ⊢) <;>
    split_ifs at hf <;>
      first
        | exact Option.noConfusion hf
        | (injection hf with hfw; subst hfw;
           first
             | exact Or.inl rfl
             | (exfalso; omega)
             | (refine Or.inr ?_;
                simp [promoList, plainMove, List.filter, Pos.mk.injEq];
                done)
             | (refine Or.inr ?_;
                simp [promoList, plainMove, List.filter, Pos.mk.injEq];
                split <;> simp_all <;> omega))

/-- Forward-block moves all stay in the pawn's file, so filtering at a
square in another file gives nothing. -/
theorem pawnForward_filter_ne {c : Color} {hm : Bool} {b : Board}
    {p : Pos} {fw : List Move} {dest : Pos}
    (hf : pawnForward c hm b p = some fw) (hcol : dest.col ≠ p.col) :
    fw.filter (fun m => m.toPos == dest) = [] := by
  rw [List.filter_eq_nil]
  intro m hm2
  obtain ⟨_, _, _, hc, _⟩ := pawnForward_mem hf hm2
  simp only [beq_iff_eq, Bool.not_eq_true]
  intro he
  exact absurd (he ▸ hc) hcol

/-- A diagonal block only targets its own offset column. -/
theorem pawnDiag_filter_ne {c : Color} {b : Board} {p : Pos} {off : Int}
    {dest : Pos} (hcol : dest.col ≠ p.col + off) :
    (pawnDiag c b p off).filter (fun m => m.toPos == dest) = [] := by
  rw [List.filter_eq_nil]
  intro m hm2
  obtain ⟨_, _, ht, _⟩ := pawnDiag_mem hm2
  simp only [beq_iff_eq, Bool.not_eq_true]
  intro he
  apply hcol
  rw [← he, ht]

/-- A diagonal block filtered at a one-step back-rank square is empty
or exactly the four-promotion expansion (the en-passant branch cannot
fire there when the stored target is on rows 1..6). -/
theorem pawnDiag_filter {c : Color} {b : Board} {p : Pos} {off : Int}
    {dest : Pos} (hep : epOK b)
    (hrow : dest.row = p.row + pawnDir c)
    (hbr : dest.row = 0 ∨ dest.row = 7) :
    (pawnDiag c b p off).filter (fun m => m.toPos == dest) = [] ∨
    (pawnDiag c b p off).filter (fun m => m.toPos == dest)
      = promoList p dest := by
  by_cases hcol : dest.col = p.col + off
  case neg => exact Or.inl (pawnDiag_filter_ne hcol)
  case pos =>
  have hdest : dest = ⟨p.row + pawnDir c, p.col + off⟩ := by
    cases dest; simp_all
  subst hdest
  dsimp only at hbr
  have hep4 : ¬ (canEnPassant b p ⟨p.row + pawnDir c, p.col + off⟩ = true) := by
    intro h4
    obtain ⟨ht, _⟩ := canEnPassant_true h4
    rcases hep with hn | ⟨t, hts, htr1, htr2⟩
    · rw [hn] at ht
      exact Option.noConfusion ht
    · rw [hts] at ht
      injection ht with ht2
      rw [ht2] at htr1 htr2
      dsimp only at htr1 htr2
      omega
  simp only [pawnDiag]
  by_cases h1 : 0 ≤ p.col + off ∧ p.col + off ≤ 7 ∧
      0 ≤ p.row + pawnDir c ∧ p.row + pawnDir c ≤ 7
  · rw [if_pos h1]
    rcases hg : getPiece b ⟨p.row + pawnDir c, p.col + off⟩ with _ | tp
    · dsimp only
      rw [if_neg hep4]
      exact Or.inl rfl
    · dsimp only
      by_cases h2 : tp.color ≠ c
      · rw [if_pos h2, if_pos hbr]
        refine Or.inr ?_
        simp [promoList, List.filter]
      · rw [if_neg h2, if_neg hep4]
        exact Or.inl rfl
  · rw [if_neg h1]
    exact Or.inl rfl

/-! Grid read/write lemmas for the executeMove frame properties. -/

theorem setO_length {α : Type} : ∀ (l : List α) (i : Nat) (v : α),
    (setO l i v).length = l.length
  | [], _, _ => rfl
  | _ :: _, 0, _ => rfl
  | x :: xs, i + 1, v => by simp [setO, setO_length xs i v]

theorem nthO_setO_self : ∀ (l : List (Option Piece)) (i : Nat)
    (v : Option Piece), i < l.length → nthO (setO l i v) i = v
  | [], i, v, h => by simp at h
  | _ :: _, 0, _, _ => rfl
  | x :: xs, i + 1, v, h => by
    simp only [setO, nthO]
    exact nthO_setO_self xs i v (by simpa using h)

theorem nthO_setO_other : ∀ (l : List (Option Piece)) (i j : Nat)
    (v : Option Piece), i ≠ j → nthO (setO l i v) j = nthO l j
  | [], _, _, _, _ => rfl
  | _ :: _, 0, 0, _, h => absurd rfl h
  | _ :: _, 0, _ + 1, _, _ => rfl
  | _ :: _, _ + 1, 0, _, _ => rfl
  | x :: xs, i + 1, j + 1, v, h => by
    simp only [setO, nthO]
    exact nthO_setO_other xs i j v (by omega)

theorem setRow_length : ∀ (g : List (List (Option Piece))) (i : Nat) (v),
    (setRow g i v).length = g.length
  | [], _, _ => rfl
  | _ :: _, 0, _ => rfl
  | x :: xs, i + 1, v => by simp [setRow, setRow_length xs i v]

theorem nthRow_setRow_self : ∀ (g : List (List (Option Piece))) (i : Nat)
    (v), i < g.length → nthRow (setRow g i v) i = v
  | [], i, v, h => by simp at h
  | _ :: _, 0, _, _ => rfl
  | x :: xs, i + 1, v, h => by
    simp only [setRow, nthRow]
    exact nthRow_setRow_self xs i v (by simpa using h)

theorem nthRow_setRow_other : ∀ (g : List (List (Option Piece)))
    (i j : Nat) (v), i ≠ j → nthRow (setRow g i v) j = nthRow g j
  | [], _, _, _, _ => rfl
  | _ :: _, 0, 0, _, h => absurd rfl h
  | _ :: _, 0, _ + 1, _, _ => rfl
  | _ :: _, _ + 1, 0, _, _ => rfl
  | x :: xs, i + 1, j + 1, v, h => by
    simp only [setRow, nthRow]
    exact nthRow_setRow_other xs i j v (by omega)

theorem nthRow_mem : ∀ (g : List (List (Option Piece))) (i : Nat),
    i < g.length → nthRow g i ∈ g
  | [], i, h => by simp at h
  | x :: xs, 0, _ => List.mem_cons_self x xs
  | x :: xs, i + 1, h =>
    List.mem_cons_of_mem x (nthRow_mem xs i (by simpa using h))

theorem mem_setRow : ∀ (g : List (List (Option Piece))) (i : Nat) (v)
    (r : List (Option Piece)), r ∈ setRow g i v → r ∈ g ∨ r = v
  | [], _, _, _, h => by simp [setRow] at h
  | x :: xs, 0, v, r, h => by
    rcases List.mem_cons.1 h with h | h
    · exact Or.inr h
    · exact Or.inl (List.mem_cons_of_mem x h)
  | x :: xs, i + 1, v, r, h => by
    rcases List.mem_cons.1 h with h | h
    · exact Or.inl (h ▸ List.mem_cons_self x xs)
    · rcases mem_setRow xs i v r h with h2 | h2
      · exact Or.inl (List.mem_cons_of_mem x h2)
      · exact Or.inr h2

theorem getPiece_setPiece_self {b : Board} {p : Pos} {v : Option Piece}
    (hw : WF b) (hp : inR p) : getPiece (setPiece b p v) p = v := by
  obtain ⟨hr1, hr2, hc1, hc2⟩ := hp
  obtain ⟨hl, hrow⟩ := hw
  have hnr : ¬(p.row < 0 ∨ p.col < 0) := by omega
  simp only [getPiece, setPiece, if_neg hnr]
  rw [nthRow_setRow_self _ _ _ (by omega)]
  rw [nthO_setO_self]
  have hmem := nthRow_mem b.grid p.row.toNat (by omega)
  rw [hrow _ hmem]
  omega

theorem getPiece_setPiece_other {b : Board} {p q : Pos}
    {v : Option Piece} (hw : WF b) (hp : inR p) (hq : inR q)
    (hne : q ≠ p) :
    getPiece (setPiece b p v) q = getPiece b q := by
  obtain ⟨hr1, hr2, hc1, hc2⟩ := hp
  obtain ⟨hr3, hr4, hc3, hc4⟩ := hq
  obtain ⟨hl, hrow⟩ := hw
  have hnp : ¬(p.row < 0 ∨ p.col < 0) := by omega
  have hnq : ¬(q.row < 0 ∨ q.col < 0) := by omega
  simp only [getPiece, setPiece, if_neg hnp, if_neg hnq]
  by_cases hrr : q.row = p.row
  · have hcc : q.col ≠ p.col := by
      intro hc
      exact hne (by cases q; cases p; simp_all)
    rw [hrr]
    rw [nthRow_setRow_self _ _ _ (by omega)]
    exact nthO_setO_other _ _ _ _ (by omega)
  · rw [nthRow_setRow_other _ _ _ _ (by omega)]

theorem setPiece_WF {b : Board} {p : Pos} {v : Option Piece}
    (hw : WF b) (hp : inR p) : WF (setPiece b p v) := by
  obtain ⟨hr1, hr2, hc1, hc2⟩ := hp
  obtain ⟨hl, hrow⟩ := hw
  unfold setPiece
  split
  · exact ⟨hl, hrow⟩
  · refine ⟨by simp [setRow_length, hl], ?_⟩
    intro r hr
    rcases mem_setRow _ _ _ _ hr with h | h
    · exact hrow r h
    · subst h
      rw [setO_length, hrow _ (nthRow_mem _ _ (by omega))]

/-! Frame lemmas for the bookkeeping steps of executeMove. -/

theorem capPush_grid (b : Board) (cap : Option Piece) :
    (capPush b cap).grid = b.grid := by
  cases cap <;> rfl

theorem histPush_grid (b : Board) (m : Move) :
    (histPush b m).grid = b.grid := rfl

theorem uept_fields (b : Board) (m : Move) :
    (updateEnPassantTarget b m).grid = b.grid ∧
    (updateEnPassantTarget b m).enPassantTarget =
      (match getPiece b m.toPos with
       | some pc =>
         if pc.pieceType == PieceType.pawn &&
             (m.fromPos.row - m.toPos.row).natAbs == 2 then
           some ⟨(m.fromPos.row + m.toPos.row).fdiv 2, m.toPos.col⟩
         else none
       | none => none) := by
  unfold updateEnPassantTarget
  rcases hg : getPiece b m.toPos with _ | pc <;> dsimp only <;>
    (try split_ifs) <;> exact ⟨rfl, rfl⟩

theorem umc_fields (b : Board) (m : Move) (cap : Option Piece) :
    (updateMoveCounters b m cap).grid = b.grid ∧
    (updateMoveCounters b m cap).enPassantTarget = b.enPassantTarget ∧
    (updateMoveCounters b m cap).moveHistory = b.moveHistory ∧
    (updateMoveCounters b m cap).capturedPieces = b.capturedPieces := by
  unfold updateMoveCounters
  split <;> (try split_ifs) <;> exact ⟨rfl, rfl, rfl, rfl⟩

theorem getPiece_congr {a b : Board} (h : a.grid = b.grid) (q : Pos) :
    getPiece a q = getPiece b q := by
  unfold getPiece
  rw [h]

theorem setPiece_congr_grid {a a2 : Board} (h : a.grid = a2.grid)
    (p : Pos) (v : Option Piece) :
    (setPiece a p v).grid = (setPiece a2 p v).grid := by
  unfold setPiece
  split <;> simp [h]

theorem WF_of_grid_eq {a a2 : Board} (h : a.grid = a2.grid) (hw : WF a) :
    WF a2 := by
  obtain ⟨h1, h2⟩ := hw
  rw [h] at h1 h2
  exact ⟨h1, h2⟩

/-- Reading the board after the three bookkeeping steps that follow a
piece relocation sees exactly the relocated grid. -/
theorem post3_getPiece (b1 : Board) (m : Move) (cap : Option Piece)
    (q : Pos) :
    getPiece (updateMoveCounters
      (updateEnPassantTarget (histPush (capPush b1 cap) m) m) m cap) q
      = getPiece b1 q :=
  getPiece_congr ((umc_fields _ _ _).1.trans
    ((uept_fields _ _).1.trans ((histPush_grid _ _).trans
      (capPush_grid _ _)))) q

theorem pos_ne_of_row {p q : Pos} (h : p.row ≠ q.row) : p ≠ q := by
  intro he
  exact h (by rw [he])

theorem pos_ne_of_col {p q : Pos} (h : p.col ≠ q.col) : p ≠ q := by
  intro he
  exact h (by rw [he])

/-- The new en-passant target after any completed executeMove is
exactly: the skipped square when the piece now on the destination is a
pawn that travelled two rows, and absent otherwise. -/
theorem executeMoveE_ep_target {b : Board} {m : Move} {b2 : Board}
    (h : executeMoveE b m = Except.ok b2) :
    b2.enPassantTarget =
      (match getPiece b2 m.toPos with
       | some pc =>
         if pc.pieceType == PieceType.pawn &&
             (m.fromPos.row - m.toPos.row).natAbs == 2 then
           some ⟨(m.fromPos.row + m.toPos.row).fdiv 2, m.toPos.col⟩
         else none
       | none => none) := by
  have key : ∀ (b3 : Board) (cap : Option Piece),
      (updateMoveCounters (updateEnPassantTarget b3 m) m cap).enPassantTarget
        = (match getPiece (updateMoveCounters
              (updateEnPassantTarget b3 m) m cap) m.toPos with
           | some pc =>
             if pc.pieceType == PieceType.pawn &&
                 (m.fromPos.row - m.toPos.row).natAbs == 2 then
               some ⟨(m.fromPos.row + m.toPos.row).fdiv 2, m.toPos.col⟩
             else none
           | none => none) := by
    intro b3 cap
    have h1 := umc_fields (updateEnPassantTarget b3 m) m cap
    have h2 := uept_fields b3 m
    rw [h1.2.1, h2.2]
    rw [getPiece_congr (h1.1.trans h2.1) m.toPos]
  unfold executeMoveE at h
  split at h
  · exact Except.noConfusion h
  · dsimp only at h
    split_ifs at h <;> (try split at h) <;> (try split at h) <;>
        (try dsimp only at h) <;>
      first
        | exact Except.noConfusion h
        | (injection h with h2; subst h2; exact key _ _)

/-- Executing a flagged en-passant move relocates the pawn to the
destination, clears the source, removes the pawn standing on
(fromPos.row, toPos.col), and changes no other square. -/
theorem ep_exec_effect {b : Board} {m : Move} {pawn : Piece} {b2 : Board}
    (hw : WF b)
    (hcast : m.isCastling = false) (hep : m.isEnPassant = true)
    (hfrom : getPiece b m.fromPos = some pawn)
    (hto : getPiece b m.toPos = none)
    (hfin : inR m.fromPos) (htin : inR m.toPos)
    (hrow : m.fromPos.row ≠ m.toPos.row)
    (hcol : m.fromPos.col ≠ m.toPos.col)
    (h : executeMoveE b m = Except.ok b2) :
    getPiece b2 m.toPos = some { pawn with hasMoved := true } ∧
    getPiece b2 m.fromPos = none ∧
    getPiece b2 ⟨m.fromPos.row, m.toPos.col⟩ = none ∧
    ∀ q, inR q → q ≠ m.toPos → q ≠ m.fromPos →
      q ≠ ⟨m.fromPos.row, m.toPos.col⟩ → getPiece b2 q = getPiece b q := by
  unfold executeMoveE at h
  rw [hfrom] at h
  dsimp only at h
  simp only [hcast, hep, Bool.false_eq_true, if_false, if_true] at h
  unfold executeEnPassant at h
  rw [hfrom] at h
  dsimp only at h
  rw [hto] at h
  injection h with h2
  subst h2
  have hcp : inR (⟨m.fromPos.row, m.toPos.col⟩ : Pos) :=
    ⟨hfin.1, hfin.2.1, htin.2.2.1, htin.2.2.2⟩
  have hw1 : WF (setPiece b m.toPos
      (some { pawn with hasMoved := true })) := setPiece_WF hw htin
  have hwB : WF (setPiece (setPiece b m.toPos
      (some { pawn with hasMoved := true })) m.fromPos none) :=
    setPiece_WF hw1 hfin
  have hwC : WF (capPush (setPiece (setPiece b m.toPos
      (some { pawn with hasMoved := true })) m.fromPos none)
      (getPiece (setPiece (setPiece b m.toPos
        (some { pawn with hasMoved := true })) m.fromPos none)
        ⟨m.fromPos.row, m.toPos.col⟩)) :=
    WF_of_grid_eq (capPush_grid _ _).symm hwB
  have hcpg : ∀ q, getPiece (setPiece (capPush (setPiece (setPiece b
      m.toPos (some { pawn with hasMoved := true })) m.fromPos none)
      (getPiece (setPiece (setPiece b m.toPos
        (some { pawn with hasMoved := true })) m.fromPos none)
        ⟨m.fromPos.row, m.toPos.col⟩)) ⟨m.fromPos.row, m.toPos.col⟩ none) q
      = getPiece (setPiece (setPiece (setPiece b m.toPos
          (some { pawn with hasMoved := true })) m.fromPos none)
          ⟨m.fromPos.row, m.toPos.col⟩ none) q := by
    intro q
    exact getPiece_congr (setPiece_congr_grid (capPush_grid _ _) _ _) q
  refine ⟨?_, ?_, ?_, ?_⟩
  · rw [post3_getPiece, hcpg]
    rw [getPiece_setPiece_other hwB hcp htin
      (pos_ne_of_row (fun he => hrow he.symm))]
    rw [getPiece_setPiece_other hw1 hfin htin
      (pos_ne_of_row (fun he => hrow he.symm))]
    exact getPiece_setPiece_self hw htin
  · rw [post3_getPiece, hcpg]
    rw [getPiece_setPiece_other hwB hcp hfin (pos_ne_of_col hcol)]
    exact getPiece_setPiece_self hw1 hfin
  · rw [post3_getPiece, hcpg]
    exact getPiece_setPiece_self hwB hcp
  · intro q hq hq1 hq2 hq3
    rw [post3_getPiece, hcpg]
    rw [getPiece_setPiece_other hwB hcp hq hq3]
    rw [getPiece_setPiece_other hw1 hfin hq hq2]
    exact getPiece_setPiece_other hw htin hq hq1

/-- C8: (1) an en-passant-flagged pawn move is generated only when its
destination equals the board's stored en-passant target and the files
are adjacent; (2) after any completed executeMove the target is set
exactly when the piece now on the destination is a pawn that travelled
two rows — i.e. by the double push just executed — and cleared after
every other move; (3) executing an en-passant capture removes the pawn
at (origin row, destination column), not the piece at the destination
square, and touches no other square. -/
theorem c8_en_passant_properties :
    (∀ (c : Color) (hm : Bool) (b : Board) (p : Pos) (ms : List Move)
        (m : Move), pawnMoves c hm b p = some ms → m ∈ ms →
        m.isEnPassant = true →
        b.enPassantTarget = some m.toPos ∧
        (m.fromPos.col - m.toPos.col).natAbs = 1 ∧
        m.fromPos = p ∧ m.promotionPiece = none) ∧
    (∀ (b : Board) (m : Move) (b2 : Board),
        executeMoveE b m = Except.ok b2 →
        b2.enPassantTarget =
          (match getPiece b2 m.toPos with
           | some pc =>
             if pc.pieceType == PieceType.pawn &&
                 (m.fromPos.row - m.toPos.row).natAbs == 2 then
               some ⟨(m.fromPos.row + m.toPos.row).fdiv 2, m.toPos.col⟩
             else none
           | none => none)) ∧
    (∀ (b : Board) (m : Move) (pawn : Piece) (b2 : Board), WF b →
        m.isCastling = false → m.isEnPassant = true →
        getPiece b m.fromPos = some pawn → getPiece b m.toPos = none →
        inR m.fromPos → inR m.toPos →
        m.fromPos.row ≠ m.toPos.row → m.fromPos.col ≠ m.toPos.col →
        executeMoveE b m = Except.ok b2 →
        getPiece b2 m.toPos = some { pawn with hasMoved := true } ∧
        getPiece b2 m.fromPos = none ∧
        getPiece b2 ⟨m.fromPos.row, m.toPos.col⟩ = none ∧
        ∀ q, inR q → q ≠ m.toPos → q ≠ m.fromPos →
          q ≠ ⟨m.fromPos.row, m.toPos.col⟩ →
          getPiece b2 q = getPiece b q) := by
  refine ⟨?_, fun b m b2 h => executeMoveE_ep_target h,
    fun b m pawn b2 hw h1 h2 h3 h4 h5 h6 h7 h8 h9 =>
      ep_exec_effect hw h1 h2 h3 h4 h5 h6 h7 h8 h9⟩
  intro c hm b p ms m h hmem hepf
  rcases pawnMoves_cases h hmem with ⟨fw, hfw, hf⟩ | hd | hd
  · obtain ⟨_, _, hep0, _⟩ := pawnForward_mem hfw hf
    rw [hepf] at hep0
    exact absurd hep0 (by simp)
  all_goals
    obtain ⟨hfromEq, _, _, hcase⟩ := pawnDiag_mem hd
  all_goals
    rcases hcase with ⟨_, hpromo, hce⟩ | ⟨hfl, _, _⟩
  · obtain ⟨ht, hcol⟩ := canEnPassant_true hce
    exact ⟨ht, by rw [hfromEq]; exact hcol, hfromEq, hpromo⟩
  · rw [hepf] at hfl
    exact absurd hfl (by simp)
  · obtain ⟨ht, hcol⟩ := canEnPassant_true hce
    exact ⟨ht, by rw [hfromEq]; exact hcol, hfromEq, hpromo⟩
  · rw [hepf] at hfl
    exact absurd hfl (by simp)

/-- The witness scenario: after 1.e4 d5 2.e5 d5 is impossible, so on
bEP (Black just double-pushed d7–d5 past the White e5 pawn) the
generator offers exactly the flagged capture e5xd6; executing it lands
the pawn on d6, empties e5 and d5, leaves a8–h8 untouched and clears
the target. -/
theorem c8_en_passant_witness :
    (bEP.enPassantTarget = some mvEP.toPos ∧
      (mvEP.fromPos.col - mvEP.toPos.col).natAbs = 1 ∧
      mvEP.fromPos = ⟨3, 4⟩ ∧ mvEP.promotionPiece = none) ∧
    (getPiece bEPafter mvEP.toPos
        = some ⟨Color.white, PieceType.pawn, true⟩ ∧
      getPiece bEPafter mvEP.fromPos = none ∧
      getPiece bEPafter ⟨mvEP.fromPos.row, mvEP.toPos.col⟩ = none ∧
      getPiece bEPafter ⟨0, 4⟩ = getPiece bEP ⟨0, 4⟩) ∧
    bEPafter.enPassantTarget = none := by
  have hexec : executeMoveE bEP mvEP = Except.ok bEPafter := rfl
  have h3 := c8_en_passant_properties.2.2 bEP mvEP
    ⟨Color.white, PieceType.pawn, true⟩ bEPafter (by decide) rfl rfl
    (by decide) (by decide) (by decide) (by decide) (by decide) (by decide)
    hexec
  refine ⟨c8_en_passant_properties.1 Color.white true bEP ⟨3, 4⟩
      [plainMove ⟨3, 4⟩ ⟨2, 4⟩, mvEP] mvEP (by decide) (by decide) rfl,
    ⟨h3.1, h3.2.1, h3.2.2.1,
      h3.2.2.2 ⟨0, 4⟩ (by decide) (by decide) (by decide) (by decide)⟩,
    (c8_en_passant_properties.2.1 bEP mvEP bEPafter hexec).trans
      (by decide)⟩

/-- C7 counterexample: from an unmoved White pawn two steps from the
back rank, Pawn.getPossibleMoves emits the double step as a plain,
unexpanded move landing on row 0 -- the two-square branch never checks
for promotion. -/
theorem c7_counterexample_double_step_plain :
    pawnMoves .white false bC7 ⟨2,0⟩ =
      some [plainMove ⟨2,0⟩ ⟨1,0⟩, plainMove ⟨2,0⟩ ⟨0,0⟩] ∧
    (plainMove ⟨2,0⟩ ⟨0,0⟩).promotionPiece = none ∧
    (plainMove ⟨2,0⟩ ⟨0,0⟩).toPos.row = 0 := by decide

/-- C7 amended: restricted to landings one step ahead (the single push
and the two captures), a back-rank landing square receives either no
move at all or exactly the four promotion moves in Queen, Rook, Bishop,
Knight order, and never a plain move; the double step is the sole
exception. -/
theorem c7_one_step_back_rank_promotes
    {c : Color} {hm : Bool} {b : Board} {p : Pos} {ms : List Move}
    {dest : Pos} (hep : epOK b)
    (hms : pawnMoves c hm b p = some ms)
    (hrow : dest.row = p.row + pawnDir c)
    (hbr : dest.row = 0 ∨ dest.row = 7) :
    (ms.filter (fun m => m.toPos == dest) = [] ∨
     ms.filter (fun m => m.toPos == dest) = promoList p dest) ∧
    promoList p dest =
      [⟨p, dest, some .queen, false, false⟩,
       ⟨p, dest, some .rook, false, false⟩,
       ⟨p, dest, some .bishop, false, false⟩,
       ⟨p, dest, some .knight, false, false⟩] := by
  refine ⟨?_, rfl⟩
  rcases hf : pawnForward c hm b p with _ | fw
  · simp only [pawnMoves, hf] at hms
    exact Option.noConfusion hms
  · simp only [pawnMoves, hf] at hms
    injection hms with hms2
    subst hms2
    rw [List.filter_append, List.filter_append]
    by_cases hc0 : dest.col = p.col
    · have h1 : (pawnDiag c b p (-1)).filter (fun m => m.toPos == dest)
          = [] := pawnDiag_filter_ne (by omega)
      have h2 : (pawnDiag c b p 1).filter (fun m => m.toPos == dest)
          = [] := pawnDiag_filter_ne (by omega)
      rw [h1, h2, List.append_nil, List.append_nil]
      exact pawnForward_filter hf hrow hbr hc0
    · have h0 : fw.filter (fun m => m.toPos == dest) = [] :=
        pawnForward_filter_ne hf hc0
      rw [h0, List.nil_append]
      by_cases hc1 : dest.col = p.col + (-1)
      · have h2 : (pawnDiag c b p 1).filter (fun m => m.toPos == dest)
            = [] := pawnDiag_filter_ne (by omega)
        rw [h2, List.append_nil]
        exact pawnDiag_filter hep hrow hbr
      · have h1 : (pawnDiag c b p (-1)).filter (fun m => m.toPos == dest)
            = [] := pawnDiag_filter_ne hc1
        rw [h1, List.nil_append]
        exact pawnDiag_filter hep hrow hbr

/-- Concrete instance: the moved White pawn on c7 of bW7 generates
exactly the four promotions on c8. -/
theorem c7_promotion_witness :
    pawnMoves .white true bW7 ⟨1,2⟩ = some (promoList ⟨1,2⟩ ⟨0,2⟩) ∧
    (((promoList ⟨1,2⟩ ⟨0,2⟩).filter
        (fun m => m.toPos == (⟨0,2⟩ : Pos)) = [] ∨
      (promoList ⟨1,2⟩ ⟨0,2⟩).filter
        (fun m => m.toPos == (⟨0,2⟩ : Pos)) = promoList ⟨1,2⟩ ⟨0,2⟩) ∧
     promoList ⟨1,2⟩ ⟨0,2⟩ =
      [⟨⟨1,2⟩, ⟨0,2⟩, some .queen, false, false⟩,
       ⟨⟨1,2⟩, ⟨0,2⟩, some .rook, false, false⟩,
       ⟨⟨1,2⟩, ⟨0,2⟩, some .bishop, false, false⟩,
       ⟨⟨1,2⟩, ⟨0,2⟩, some .knight, false, false⟩]) :=
  ⟨by decide, @c7_one_step_back_rank_promotes .white true bW7 ⟨1,2⟩ (promoList ⟨1,2⟩ ⟨0,2⟩) ⟨0,2⟩
    (Or.inl rfl) (by decide) (by decide) (by decide)⟩

/-- Every move on the kingside branch list of getCastlingMoves carries
the isCastling flag. -/
theorem castlingOf_ks_mem {g : Gen} {b : Board} {p : Pos} {pc : Piece}
    {ksl : List Move}
    (h : (match getPiece b ⟨p.row, 7⟩ with
          | some r =>
            if r.pieceType == PieceType.rook && !r.hasMoved then
              match cctOf g b pc.color [p, ⟨p.row, 6⟩, ⟨p.row, 5⟩] with
              | none => none
              | some true => some [⟨p, ⟨p.row, 6⟩, none, true, false⟩]
              | some false => some []
            else some []
          | none => some []) = some ksl) :
    ∀ x ∈ ksl, x.isCastling = true := by
  intro x hx
  split at h
  · split at h
    · split at h
      · exact Option.noConfusion h
      · injection h with h2
        subst h2
        fin_cases hx
        rfl
      · injection h with h2
        subst h2
        exact absurd hx (List.not_mem_nil x)
    · injection h with h2
      subst h2
      exact absurd hx (List.not_mem_nil x)
  · injection h with h2
    subst h2
    exact absurd hx (List.not_mem_nil x)

/-- Every move produced by King.getCastlingMoves carries the
isCastling flag. -/
theorem castlingOf_mem {g : Gen} {b : Board} {p : Pos} {pc : Piece}
    {cms : List Move} {m : Move}
    (h : castlingOf g b p pc = some cms) (hm : m ∈ cms) :
    m.isCastling = true := by
  unfold castlingOf at h
  dsimp only at h
  split at h
  · exact Option.noConfusion h
  · next ksl heq =>
    have hksl := castlingOf_ks_mem heq
    split at h
    · split at h
      · split at h
        · exact Option.noConfusion h
        · injection h with h2
          subst h2
          rcases List.mem_append.1 hm with hm2 | hm2
          · exact hksl m hm2
          · fin_cases hm2
            rfl
        · injection h with h2
          subst h2
          exact hksl m hm
      · injection h with h2
        subst h2
        exact hksl m hm
    · injection h with h2
      subst h2
      exact hksl m hm

/-- A king's generated moves are adjacent-square moves or
castling-flagged. -/
theorem gpm_king_mem {g : Gen} {b : Board} {p : Pos} {pc : Piece}
    {ms : List Move} {m : Move} (hk : pc.pieceType = PieceType.king)
    (h : gpmOf g b p pc = some ms) (hm : m ∈ ms) :
    m ∈ kingAdj b pc.color p ∨ m.isCastling = true := by
  simp only [gpmOf, hk] at h
  split_ifs at h with hmoved
  · injection h with h2
    subst h2
    exact Or.inl hm
  · split at h
    · exact Option.noConfusion h
    · injection h with h2
      subst h2
      exact Or.inl hm
    · split at h
      · exact Option.noConfusion h
      · next cms hcc =>
        injection h with h2
        subst h2
        rcases List.mem_append.1 hm with hm2 | hm2
        · exact Or.inl hm2
        · exact Or.inr (castlingOf_mem hcc hm2)

/-- A generated pawn move onto an empty square either stays in the
pawn's file or is en-passant-flagged: diagonal captures need an enemy
piece on the landing square. -/
theorem pawn_mem_empty {c : Color} {hm : Bool} {b : Board} {p : Pos}
    {ms : List Move} {m : Move}
    (h : pawnMoves c hm b p = some ms) (hmem : m ∈ ms)
    (hempty : getPiece b m.toPos = none) :
    m.toPos.col = p.col ∨ m.isEnPassant = true := by
  rcases pawnMoves_cases h hmem with ⟨fw, hfw, hf⟩ | hd | hd
  · obtain ⟨_, _, _, hc, _⟩ := pawnForward_mem hfw hf
    exact Or.inl hc
  · rcases pawnDiag_mem hd with ⟨_, _, _, ⟨hep, _, _⟩ | ⟨_, ⟨tp, htp, _⟩, _⟩⟩
    · exact Or.inr hep
    · rw [hempty] at htp
      exact Option.noConfusion htp
  · rcases pawnDiag_mem hd with ⟨_, _, _, ⟨hep, _, _⟩ | ⟨_, ⟨tp, htp, _⟩, _⟩⟩
    · exact Or.inr hep
    · rw [hempty] at htp
      exact Option.noConfusion htp

/-- Structural move comparison finds no king move matching an
unflagged move two or more files away. -/
theorem king_any_false {fuel : Nat} {b : Board} {p : Pos} {pc : Piece}
    {ms : List Move} {mv : Move} (hk : pc.pieceType = PieceType.king)
    (h : getPossibleMovesF fuel b p pc = some ms)
    (hmv : mv.isCastling = false)
    (hcol : 2 ≤ (p.col - mv.toPos.col).natAbs) :
    ms.any (fun x => x.equalsb mv) = false := by
  cases fuel with
  | zero => exact Option.noConfusion h
  | succ n =>
    simp only [getPossibleMovesF, gpmF] at h
    rw [List.any_eq_false]
    intro x hx
    simp only [equalsb_iff]
    intro he
    subst he
    rcases gpm_king_mem hk h hx with hadj | hcast
    · obtain ⟨_, _, _, _, hb⟩ := kingAdj_mem hadj
      omega
    · rw [hmv] at hcast
      exact Bool.noConfusion hcast

/-- Structural move comparison finds no pawn move matching an
unflagged file-changing move onto an empty square. -/
theorem pawn_any_false {fuel : Nat} {b : Board} {p : Pos} {pc : Piece}
    {ms : List Move} {mv : Move} (hk : pc.pieceType = PieceType.pawn)
    (h : getPossibleMovesF fuel b p pc = some ms)
    (hmv : mv.isEnPassant = false)
    (hempty : getPiece b mv.toPos = none)
    (hcol : mv.toPos.col ≠ p.col) :
    ms.any (fun x => x.equalsb mv) = false := by
  cases fuel with
  | zero => exact Option.noConfusion h
  | succ n =>
    simp only [getPossibleMovesF, gpmF, gpmOf, hk] at h
    rw [List.any_eq_false]
    intro x hx
    simp only [equalsb_iff]
    intro he
    subst he
    rcases pawn_mem_empty h hx hempty with hc | hep
    · exact hcol hc
    · rw [hmv] at hep
      exact Bool.noConfusion hep

/-- Board.makeMove with a piece on the source square whose generated
moves never match the requested move: validation fails (or the
generator throws) and the board is returned unchanged. -/
theorem makeMoveF_reject {fuel : Nat} {b : Board} {mv : Move} {pc : Piece}
    (hpc : getPiece b mv.fromPos = some pc)
    (hany : ∀ ms, getPossibleMovesF fuel b mv.fromPos pc = some ms →
        ms.any (fun x => x.equalsb mv) = false) :
    makeMoveF fuel b mv = (b, some false) ∨
      makeMoveF fuel b mv = (b, none) := by
  unfold makeMoveF
  rw [hpc]
  dsimp only
  rcases hg : getPossibleMovesF fuel b mv.fromPos pc with _ | ms
  · rw [show isMoveValidF fuel b pc mv = none by
      simp only [isMoveValidF, hg]]
    exact Or.inr rfl
  · rw [show isMoveValidF fuel b pc mv = some false by
      simp only [isMoveValidF, hg, hany ms hg]]
    exact Or.inl rfl

/-- The same rejection lifted through ChessGame.makeMove: the game is
returned unchanged with false, or unchanged when the recursion
escapes. -/
theorem gameMakeMoveF_reject {fuel : Nat} {g : ChessGame} {mv : Move}
    {pc : Piece} (hpc : getPiece g.board mv.fromPos = some pc)
    (hany : ∀ ms, getPossibleMovesF fuel g.board mv.fromPos pc = some ms →
        ms.any (fun x => x.equalsb mv) = false) :
    gameMakeMoveF fuel g mv = (g, some false) ∨
      gameMakeMoveF fuel g mv = (g, none) := by
  unfold gameMakeMoveF
  split_ifs with hterm
  · exact Or.inl rfl
  · rw [hpc]
    dsimp only
    split_ifs with hcolr
    · exact Or.inl rfl
    · rcases makeMoveF_reject hpc hany with hmm | hmm <;> rw [hmm]
      · exact Or.inl rfl
      · exact Or.inr rfl

/-- Unfolding makeMoveFromAlgebraic past a successful parse: it always
hands gameMakeMove a move with isCastling = false and
isEnPassant = false. -/
theorem mmfa_eq (fuel : Nat) (g : ChessGame) (fromS toS : String)
    (promo : Option String) (fp tp : JNum × JNum) (f t : Pos)
    (hf : fromAlgebraic fromS = some fp)
    (ht : fromAlgebraic toS = some tp)
    (hfe : toEnginePos fp = some f)
    (hte : toEnginePos tp = some t) :
    makeMoveFromAlgebraicF fuel g fromS toS promo =
      (match gameMakeMoveF fuel g
          ⟨f, t, (match promo with | some s => promoOf s | none => none),
            false, false⟩ with
       | (g2, some r) => (g2, r)
       | (g2, none) => (g2, false)) := by
  unfold makeMoveFromAlgebraicF
  rw [hf, ht]
  dsimp only
  rw [hfe, hte]

/-- C9: makeMoveFromAlgebraic builds its move with both special flags
false and validation compares all five fields structurally, so an
attempt that could only be castling (a king jump of two or more files)
or en passant (a pawn capture onto an empty square) returns false and
leaves the game exactly as it was. -/
theorem c9_algebraic_entry_cannot_castle_or_ep (fuel : Nat) (g : ChessGame) (fromS toS : String)
    (promo : Option String) (fp tp : JNum × JNum) (f t : Pos) (pc : Piece)
    (hf : fromAlgebraic fromS = some fp)
    (ht : fromAlgebraic toS = some tp)
    (hfe : toEnginePos fp = some f)
    (hte : toEnginePos tp = some t)
    (hpc : getPiece g.board f = some pc)
    (hshape :
      (pc.pieceType = PieceType.king ∧ 2 ≤ (f.col - t.col).natAbs) ∨
      (pc.pieceType = PieceType.pawn ∧ getPiece g.board t = none ∧
        t.col ≠ f.col)) :
    makeMoveFromAlgebraicF fuel g fromS toS promo = (g, false) := by
  rw [mmfa_eq fuel g fromS toS promo fp tp f t hf ht hfe hte]
  generalize ((match promo with
    | some s => promoOf s
    | none => none) : Option PieceType) = pp
  have hany : ∀ ms, getPossibleMovesF fuel g.board f pc = some ms →
      ms.any (fun x => x.equalsb
        (⟨f, t, pp, false, false⟩ : Move)) = false := by
    intro ms hms
    rcases hshape with ⟨hk, hcol⟩ | ⟨hk, hemp, hcol⟩
    · exact king_any_false hk hms rfl hcol
    · exact pawn_any_false hk hms rfl hemp hcol
  rcases @gameMakeMoveF_reject fuel g
      ⟨f, t, pp, false, false⟩ pc hpc hany with hg2 | hg2 <;> rw [hg2]

/-- Concrete instance: on the initial position the castling request
e1-g1 is refused and the game is untouched. -/
theorem c9_algebraic_witness :
    getPiece startGame.board ⟨7, 4⟩ = some ⟨.white, .king, false⟩ ∧
    makeMoveFromAlgebraicF 5 startGame "e1" "g1" none =
      (startGame, false) :=
  ⟨by decide,
   c9_algebraic_entry_cannot_castle_or_ep 5 startGame "e1" "g1" none ⟨.int 7, .int 4⟩ ⟨.int 7, .int 6⟩
     ⟨7, 4⟩ ⟨7, 6⟩ ⟨.white, .king, false⟩ (by decide) (by decide) rfl rfl
     (by decide) (Or.inl ⟨rfl, by decide⟩)⟩

/-- C10: Board.makeMove checks only piece presence, pseudo-legality
and own-king safety, never whose turn it is, and executes any move
that passes; the turn gate (piece colour vs currentPlayer) and the
terminal-state gate live solely in ChessGame.makeMove. -/
theorem c10_board_makeMove_no_turn_enforcement :
    (∀ (fuel : Nat) (b : Board) (m : Move) (pc : Piece) (b2 : Board),
      getPiece b m.fromPos = some pc →
      isMoveValidF fuel b pc m = some true →
      wouldBeInCheckAfterMoveF fuel b m pc.color = some false →
      executeMoveE b m = Except.ok b2 →
      makeMoveF fuel b m = (b2, some true)) ∧
    (∀ (fuel : Nat) (g : ChessGame) (m : Move) (pc : Piece),
      (g.gameState = GameState.ongoing ∨ g.gameState = GameState.check) →
      getPiece g.board m.fromPos = some pc →
      pc.color ≠ g.currentPlayer →
      gameMakeMoveF fuel g m = (g, some false)) ∧
    (∀ (fuel : Nat) (g : ChessGame) (m : Move),
      g.gameState ≠ GameState.ongoing → g.gameState ≠ GameState.check →
      gameMakeMoveF fuel g m = (g, some false)) := by
  refine ⟨?_, ?_, ?_⟩
  · intro fuel b m pc b2 hpc hval hchk hex
    unfold makeMoveF
    rw [hpc]
    dsimp only
    rw [hval]
    dsimp only
    rw [hchk]
    dsimp only
    rw [hex]
  · intro fuel g m pc hst hpc hcol
    unfold gameMakeMoveF
    have hgate : ¬(g.gameState ≠ GameState.ongoing ∧
        g.gameState ≠ GameState.check) := by
      rcases hst with h | h <;> simp [h]
    rw [if_neg hgate, hpc]
    dsimp only
    rw [if_pos hcol]
  · intro fuel g m h1 h2
    unfold gameMakeMoveF
    rw [if_pos ⟨h1, h2⟩]

/-- Concrete instance: Board.makeMove executes the Black rook move
a8-a4 on bT even though no White move preceded it, while
ChessGame.makeMove refuses the identical move for turn order (White to
play) and in a checkmate state. -/
theorem c10_no_turn_witness :
    getPiece bT mvT.fromPos = some ⟨.black, .rook, false⟩ ∧
    makeMoveF 2 bT mvT = (bTAfter, some true) ∧
    gameMakeMoveF 2 ⟨bT, .white, .ongoing, 0⟩ mvT =
      (⟨bT, .white, .ongoing, 0⟩, some false) ∧
    gameMakeMoveF 2 ⟨bT, .white, .checkmate, 0⟩ mvT =
      (⟨bT, .white, .checkmate, 0⟩, some false) :=
  ⟨by decide,
   c10_board_makeMove_no_turn_enforcement.1 2 bT mvT ⟨.black, .rook, false⟩ bTAfter (by decide)
     (by decide) (by decide) rfl,
   c10_board_makeMove_no_turn_enforcement.2.1 2 ⟨bT, .white, .ongoing, 0⟩ mvT ⟨.black, .rook, false⟩
     (Or.inl rfl) (by decide) (by decide),
   c10_board_makeMove_no_turn_enforcement.2.2 2 ⟨bT, .white, .checkmate, 0⟩ mvT (by decide) (by decide)⟩


end Chess
